import Mathlib

/-!
Verification of the board-game club's incremental aggregate-maintenance engine
(`write_funcs.py`, `graph_funcs.py`, `models.py`) against its design notes.

The Redis store is shallowly embedded as an explicit `Store` record whose
fields correspond one-to-one to the key families of `keys.py`; every write
function of `write_funcs.py` becomes a pure state transformer over `Store`.
Redis primitives are modelled by their documented semantics: `SADD`/`SREM`/
`SMEMBERS` by `Finset` operations, `RPUSH`/`LPUSH`/`LTRIM`/`LREM`/`LINSERT`
by list operations, `INCR` by `+ 1` over a `Nat`-valued (or association-list)
counter, `GET` of a possibly-missing key by `Option`. Exceptions that a
Python function may raise while earlier writes persist are modelled by
returning the partially-written store together with an `Option WriteError`.
-/

namespace BoardGameClub

/-- Pointwise update of a function at one argument, used to model writing a
single parameterized Redis key (for example `player:p:number_of_wins`). -/
def fupd {α β : Type} [DecidableEq α] (f : α → β) (a : α) (b : β) : α → β :=
  fun x => if x = a then b else f x

/-- Pointwise update of a two-parameter key family (for example
`player:p:openings:e:count`). -/
def fupd2 {α γ β : Type} [DecidableEq α] [DecidableEq γ]
    (f : α → γ → β) (a : α) (c : γ) (b : β) : α → γ → β :=
  fun x y => if x = a ∧ y = c then b else f x y

@[simp] theorem fupd_same {α β : Type} [DecidableEq α] (f : α → β) (a : α) (b : β) :
    fupd f a b a = b := by simp [fupd]

@[simp] theorem fupd_other {α β : Type} [DecidableEq α] (f : α → β) (a x : α) (b : β)
    (h : x ≠ a) : fupd f a b x = f x := by simp [fupd, h]

/-! ### Association-list counters

`global:seq:{seq}:count` keys are modelled as an association list so that the
rescan of `__find_least_common_seqs` (a `SCAN` over all such keys) can be
expressed; a key exists exactly when it has been incremented at least once. -/

/-- Value of counter `k` (`GET`), `none` when the key does not exist. -/
def assocGet (l : List (String × Nat)) (k : String) : Option Nat :=
  (l.find? (fun p => p.1 = k)).map Prod.snd

/-- Redis `INCR`: a missing key is treated as 0 and created. -/
def assocIncr (l : List (String × Nat)) (k : String) : List (String × Nat) :=
  if l.any (fun p => p.1 = k) then
    l.map (fun p => if p.1 = k then (p.1, p.2 + 1) else p)
  else l ++ [(k, 1)]

/-! ### Pure helpers of `write_funcs.py` -/

/-- Embedding of `__find_number_of_checks`: counts the moves containing a
plus sign (Python `move.find("+") >= 0`). -/
def find_number_of_checks (moves : List String) : Nat :=
  moves.foldl (fun acc move => if move.contains (Char.ofNat 43) then acc + 1 else acc) 0

/-- Embedding of `__find_all_three_move_sequences`: one comma-joined window
`moves[i-2:i+1]` for each `i` in Python `range(2, len(moves))`. -/
def find_all_three_move_sequences (moves : List String) : List String :=
  (List.range' 2 (moves.length - 2)).map
    (fun i => String.intercalate "," ((moves.drop (i - 2)).take 3))

/-! ### Moveset parsing

`__parse_moveset` returns a `list` moveset as is and passes a string
moveset through `json.loads` after replacing single quotes with double
quotes. `json.loads` (Python 3 with default arguments) is modelled by a
recursive-descent parser of the JSON grammar: whitespace around tokens,
`null`/`true`/`false`, numbers including the `NaN`/`Infinity`/`-Infinity`
constants the default decoder accepts, strings in strict mode (raw control
characters rejected, `\uXXXX` escapes of exactly four hex digits decoded,
surrogate pairs combined), arrays and objects, and nothing but whitespace
after the one top-level value. A failure is `json.JSONDecodeError`. One
representational deviation: Python keeps the lone surrogate of an unpaired
`\uXXXX` escape inside the returned `str`, which a Lean `Char` cannot
hold, so a lone surrogate decodes to U+FFFD here; which inputs are
accepted and which are rejected is unaffected. -/

/-- Input to `__parse_moveset`: Python `Union[str, List[str]]`. -/
inductive Moveset : Type
  | ofList (moves : List String) : Moveset
  | ofString (s : String) : Moveset
deriving DecidableEq

/-- The Python value `json.loads` returns: `None`, `bool`, a number (`int`
or `float`; the numeric value is never consumed by the ingestion code,
which only ever type-errors on a number), `str`, `list` or `dict`. -/
inductive JVal : Type
  | jnull : JVal
  | jbool (b : Bool) : JVal
  | jnum : JVal
  | jstr (s : String) : JVal
  | jarr (items : List JVal) : JVal
  | jobj (members : List (String × JVal)) : JVal

def singleQuote : Char := Char.ofNat 39

def doubleQuote : Char := Char.ofNat 34

def backslash : Char := Char.ofNat 92

/-- JSON whitespace skipping (the decoder skips over space, tab, newline
and carriage return). -/
def skipWs : List Char → List Char
  | [] => []
  | c :: cs =>
    if c = ' ' ∨ c = Char.ofNat 9 ∨ c = Char.ofNat 10 ∨ c = Char.ofNat 13 then skipWs cs
    else c :: cs

/-- Translation of a single-character JSON escape; `\u` escapes are decoded
separately. -/
def jsonEscape (c : Char) : Option Char :=
  if c = doubleQuote then some doubleQuote
  else if c = backslash then some backslash
  else if c = '/' then some '/'
  else if c = 'b' then some (Char.ofNat 8)
  else if c = 'f' then some (Char.ofNat 12)
  else if c = 'n' then some (Char.ofNat 10)
  else if c = 'r' then some (Char.ofNat 13)
  else if c = 't' then some (Char.ofNat 9)
  else none

def hexDigit (c : Char) : Option Nat :=
  if '0' ≤ c ∧ c ≤ '9' then some (c.toNat - 48)
  else if 'a' ≤ c ∧ c ≤ 'f' then some (c.toNat - 87)
  else if 'A' ≤ c ∧ c ≤ 'F' then some (c.toNat - 55)
  else none

/-- Four hex digits of a `\uXXXX` escape. -/
def hex4 : List Char → Option (Nat × List Char)
  | a :: b :: c :: d :: rest =>
    match hexDigit a, hexDigit b, hexDigit c, hexDigit d with
    | some w, some x, some y, some z => some (((w * 16 + x) * 16 + y) * 16 + z, rest)
    | _, _, _, _ => none
  | _ => none

/-- Stand-in for a lone UTF-16 surrogate, which Python strings hold but a
Lean `Char` cannot: U+FFFD. -/
def surrogateChar : Char := Char.ofNat 0xFFFD

/-- The body of a JSON string after its opening quote, in strict mode: a
raw control character (code < 32) is rejected, `\uXXXX` escapes are
decoded with surrogate pairs combined (a high surrogate looks ahead for
`\u` plus a low surrogate, exactly as the decoder does, and stays lone
otherwise). Returns the decoded characters and the input after the closing
quote. Fuel bounds the recursion; each step consumes at least one input
character, so `length + 1` fuel never runs out. -/
def parseStringBody : Nat → List Char → Option (List Char × List Char)
  | 0, _ => none
  | Nat.succ fuel, cs =>
    match cs with
    | [] => none
    | c :: cs1 =>
      if c = doubleQuote then some ([], cs1)
      else if c = backslash then
        match cs1 with
        | [] => none
        | e :: cs2 =>
          if e = 'u' then
            match hex4 cs2 with
            | none => none
            | some (n, cs3) =>
              if 0xD800 ≤ n ∧ n ≤ 0xDBFF then
                match cs3 with
                | b1 :: b2 :: cs4 =>
                  if b1 = backslash ∧ b2 = 'u' then
                    match hex4 cs4 with
                    | none => none
                    | some (m, cs5) =>
                      if 0xDC00 ≤ m ∧ m ≤ 0xDFFF then
                        (parseStringBody fuel cs5).map (fun r =>
                          (Char.ofNat (0x10000 + (n - 0xD800) * 0x400 + (m - 0xDC00)) ::
                            r.1, r.2))
                      else
                        (parseStringBody fuel cs3).map
                          (fun r => (surrogateChar :: r.1, r.2))
                  else
                    (parseStringBody fuel cs3).map (fun r => (surrogateChar :: r.1, r.2))
                | _ => (parseStringBody fuel cs3).map (fun r => (surrogateChar :: r.1, r.2))
              else if 0xDC00 ≤ n ∧ n ≤ 0xDFFF then
                (parseStringBody fuel cs3).map (fun r => (surrogateChar :: r.1, r.2))
              else
                (parseStringBody fuel cs3).map (fun r => (Char.ofNat n :: r.1, r.2))
          else
            match jsonEscape e with
            | none => none
            | some d => (parseStringBody fuel cs2).map (fun r => (d :: r.1, r.2))
      else if c.toNat < 32 then none
      else (parseStringBody fuel cs1).map (fun r => (c :: r.1, r.2))

/-- Integer part of the decoder's number grammar: `0` alone, or a nonzero
digit followed by digits. -/
def parseIntDigits : List Char → Option (List Char)
  | [] => none
  | c :: rest =>
    if c = '0' then some rest
    else if c.isDigit then some (rest.dropWhile Char.isDigit)
    else none

/-- Fractional part `.` digits, consumed only when fully present (the
decoder's regex otherwise leaves the bare dot to the surrounding
context). -/
def parseFrac (cs : List Char) : List Char :=
  match cs with
  | c :: d :: rest =>
    if c = '.' ∧ d.isDigit then rest.dropWhile Char.isDigit
    else cs
  | _ => cs

/-- Exponent part `e`/`E`, optional sign, digits, consumed only when fully
present. -/
def parseExp (cs : List Char) : List Char :=
  match cs with
  | e :: rest =>
    if e = 'e' ∨ e = 'E' then
      match rest with
      | s :: rest2 =>
        if s = '+' ∨ s = '-' then
          match rest2 with
          | d :: rest3 =>
            if d.isDigit then rest3.dropWhile Char.isDigit else cs
          | [] => cs
        else if s.isDigit then rest2.dropWhile Char.isDigit
        else cs
      | [] => cs
    else cs
  | [] => cs

/-- A JSON number after an optional leading minus (already consumed by the
caller): integer part, then optional fraction and exponent. -/
def parseNumber (cs : List Char) : Option (List Char) :=
  (parseIntDigits cs).map (fun rest => parseExp (parseFrac rest))

mutual

/-- One JSON value, whitespace-tolerant, following the scanner: string,
object, array, `null`, `true`, `false`, number, or the `NaN`, `Infinity`,
`-Infinity` constants. Fuel decreases on every nested parse; at least one
character is consumed per two fuel steps. -/
def parseVal : Nat → List Char → Option (JVal × List Char)
  | 0, _ => none
  | Nat.succ fuel, cs =>
    match skipWs cs with
    | [] => none
    | c :: cs1 =>
      if c = doubleQuote then
        (parseStringBody (cs1.length + 1) cs1).map
          (fun r => (JVal.jstr (String.mk r.1), r.2))
      else if c = '{' then
        match skipWs cs1 with
        | [] => none
        | d :: cs2 =>
          if d = '}' then some (JVal.jobj [], cs2)
          else
            match parseMembers fuel (d :: cs2) with
            | none => none
            | some (ms, rest) => some (JVal.jobj ms, rest)
      else if c = '[' then
        match skipWs cs1 with
        | [] => none
        | d :: cs2 =>
          if d = ']' then some (JVal.jarr [], cs2)
          else
            match parseElements fuel (d :: cs2) with
            | none => none
            | some (vs, rest) => some (JVal.jarr vs, rest)
      else if c = 'n' then
        match cs1 with
        | 'u' :: 'l' :: 'l' :: rest => some (JVal.jnull, rest)
        | _ => none
      else if c = 't' then
        match cs1 with
        | 'r' :: 'u' :: 'e' :: rest => some (JVal.jbool true, rest)
        | _ => none
      else if c = 'f' then
        match cs1 with
        | 'a' :: 'l' :: 's' :: 'e' :: rest => some (JVal.jbool false, rest)
        | _ => none
      else if c = '-' then
        match cs1 with
        | 'I' :: 'n' :: 'f' :: 'i' :: 'n' :: 'i' :: 't' :: 'y' :: rest =>
          some (JVal.jnum, rest)
        | _ => (parseNumber cs1).map (fun rest => (JVal.jnum, rest))
      else if c.isDigit then
        (parseNumber (c :: cs1)).map (fun rest => (JVal.jnum, rest))
      else if c = 'N' then
        match cs1 with
        | 'a' :: 'N' :: rest => some (JVal.jnum, rest)
        | _ => none
      else if c = 'I' then
        match cs1 with
        | 'n' :: 'f' :: 'i' :: 'n' :: 'i' :: 't' :: 'y' :: rest => some (JVal.jnum, rest)
        | _ => none
      else none

/-- The elements of a non-empty JSON array, starting at the first element,
consuming the closing bracket. -/
def parseElements : Nat → List Char → Option (List JVal × List Char)
  | 0, _ => none
  | Nat.succ fuel, cs =>
    match parseVal fuel cs with
    | none => none
    | some (v, rest) =>
      match skipWs rest with
      | [] => none
      | d :: rest1 =>
        if d = ']' then some ([v], rest1)
        else if d = ',' then
          match parseElements fuel rest1 with
          | none => none
          | some (vs, rest2) => some (v :: vs, rest2)
        else none

/-- The members of a non-empty JSON object, starting at the first key
(which must be a double-quoted string), consuming the closing brace. -/
def parseMembers : Nat → List Char → Option (List (String × JVal) × List Char)
  | 0, _ => none
  | Nat.succ fuel, cs =>
    match cs with
    | [] => none
    | c :: cs1 =>
      if c = doubleQuote then
        match parseStringBody (cs1.length + 1) cs1 with
        | none => none
        | some (key, rest) =>
          match skipWs rest with
          | ':' :: rest1 =>
            match parseVal fuel rest1 with
            | none => none
            | some (v, rest2) =>
              match skipWs rest2 with
              | '}' :: rest3 => some ([(String.mk key, v)], rest3)
              | ',' :: rest3 =>
                match parseMembers fuel (skipWs rest3) with
                | none => none
                | some (ms, rest4) => some ((String.mk key, v) :: ms, rest4)
              | _ => none
          | _ => none
      else none

end

/-- Model of `json.loads` on `str` input with default arguments: leading
and trailing JSON whitespace around exactly one value; anything else after
the value is the "Extra data" error. An `Except.error` is
`json.JSONDecodeError`. -/
def json_loads (s : String) : Except Unit JVal :=
  match parseVal (2 * s.data.length + 2) s.data with
  | none => Except.error ()
  | some (v, rest) =>
    match skipWs rest with
    | [] => Except.ok v
    | _ => Except.error ()

/-- Python `moveset.replace("'", '"')`: since the pattern is a single
character, the replacement is a character-wise map. -/
def replaceQuotes (s : String) : String :=
  String.mk (s.data.map (fun c => if c = singleQuote then doubleQuote else c))

/-- Embedding of `__parse_moveset`: a value that is already a `list` is
returned as is; a string is passed through `json.loads` after single
quotes are replaced by double quotes. A parse failure is
`json.JSONDecodeError` escaping from `json.loads`. -/
def parse_moveset (m : Moveset) : Except Unit JVal :=
  match m with
  | Moveset.ofList l => Except.ok (JVal.jarr (l.map JVal.jstr))
  | Moveset.ofString s => json_loads (replaceQuotes s)

/-- All-strings reading of a Python list. -/
def jstrList : List JVal → Option (List String)
  | [] => some []
  | JVal.jstr s :: rest => (jstrList rest).map (fun l => s :: l)
  | _ => none

/-- The token sequence the ingestion code iterates over: a Python `list`
whose elements are all strings yields its elements, and a `str` yields its
characters — under `len`, slicing and `",".join` a Python string behaves
exactly as the sequence of its one-character substrings. Any other payload
offers no such sequence: on it `add_game_record` dies with a `TypeError`
when `__find_all_three_move_sequences` joins a window containing a
non-string (a payload of this kind with fewer than three elements would
instead wander further into the write path; no theorem below depends on
that branch). -/
def pyTokens : JVal → Option (List String)
  | JVal.jarr items => jstrList items
  | JVal.jstr s => some (s.data.map (fun c => String.mk [c]))
  | _ => none

/-! ### The bounded leaderboard (`__update_top_list`)

Entries of the Redis list are strings `pid:score`; they are modelled as
pairs. `LREM key 0 v` removes every occurrence of `v`; `LINSERT key BEFORE
pivot v` inserts `v` before the first occurrence of `pivot` (and leaves the
list unchanged when the pivot is absent); `LTRIM key 0 9` keeps the first
ten entries. -/

/-- Redis `LINSERT ... BEFORE pivot e`: insert `e` before the first
occurrence of `pivot`. -/
def linsertBefore : List (String × Nat) → (String × Nat) → (String × Nat) → List (String × Nat)
  | [], _, _ => []
  | x :: xs, pivot, e => if x = pivot then e :: x :: xs else x :: linsertBefore xs pivot e

/-- Embedding of `__update_top_list`: remove the stale `pid:(new_score-1)`
entry, scan for the first entry whose score is at most `new_score`, insert
the new entry before it (or append), and trim to ten entries. -/
def update_top_list (top : List (String × Nat)) (pid : String) (new_score : Nat) :
    List (String × Nat) :=
  let afterRem := top.filter (fun e => e ≠ (pid, new_score - 1))
  let inserted :=
    match afterRem.find? (fun item => new_score ≥ item.2) with
    | none => afterRem ++ [(pid, new_score)]
    | some pivot => linsertBefore afterRem pivot (pid, new_score)
  inserted.take 10

/-! ### The store

One field per key family of `keys.py`. Counters stored as decimal strings in
Redis are modelled as `Nat` (with the Redis `INCR` convention that a missing
counter reads as 0); keys that the code distinguishes between "missing" and
"present" via `GET is None` are modelled as `Option`. Friend-group ids are
fresh `uuid4` hex strings in the code; they are modelled as naturals drawn
from the counter `next_fid`, which plays the role of `__new_fid`'s
collision-checked fresh-id generation. -/

structure Store : Type where
  /-- key `global:players:ids` -/
  global_players_ids : Finset String
  /-- key `global:players:emails` -/
  global_players_emails : Finset String
  /-- keys `player:p:email` -/
  player_email : String → Option String
  /-- keys `player:p:number_of_wins` -/
  player_wins : String → Nat
  /-- keys `player:p:number_of_losses` -/
  player_losses : String → Nat
  /-- keys `player:p:number_of_draws` -/
  player_draws : String → Nat
  /-- keys `player:p:games-list` -/
  player_games_list : String → List String
  /-- keys `player:p:games-set` -/
  player_games_set : String → Finset String
  /-- keys `player:p:opponents` -/
  player_opponents : String → Finset String
  /-- keys `player:p:openings:e:count` -/
  player_opening_count : String → String → Nat
  /-- keys `player:p:most_freq_opening` -/
  player_most_freq_opening : String → Option String
  /-- keys `player:p:most_freq_opening:count` (`add_player` writes 0, so
  "missing" and "0" are distinguishable and both occur) -/
  player_most_freq_opening_count : String → Option Nat
  /-- keys `player:p:friend_group` -/
  player_friend_group : String → Option Nat
  /-- keys `player:p:scheduled_games` -/
  player_scheduled_games : String → List String
  /-- keys `player:p:scheduled_games:g:opponent` (their 72-hour expiry is
  wall-clock behaviour outside this timeless embedding) -/
  player_scheduled_opponent : String → String → Option String
  /-- key `global:games:ids` -/
  global_games_ids : Finset String
  /-- keys `global:friend_group:f`; a deleted or never-created group is the
  empty set, matching Redis where an empty set key does not exist -/
  global_friend_group : Nat → Finset String
  /-- fresh-id source modelling `__new_fid` -/
  next_fid : Nat
  /-- keys `global:seq:s:games` -/
  global_seq_games : String → Finset String
  /-- keys `global:seq:s:count`, as an association list so the key scan of
  `__find_least_common_seqs` can enumerate them -/
  global_seq_count : List (String × Nat)
  /-- keys `global:openings:e:count` -/
  global_opening_count : String → Nat
  /-- keys `game:g:winner` -/
  game_winner : String → Option String
  /-- keys `game:g:victory_status` -/
  game_victory_status : String → Option String
  /-- keys `game:g:number_of_turns` -/
  game_turns : String → Option Nat
  /-- keys `game:g:number_of_checks` -/
  game_checks : String → Option Nat
  /-- keys `game:g:white_player_id` -/
  game_white_player : String → Option String
  /-- keys `game:g:black_player_id` -/
  game_black_player : String → Option String
  /-- keys `game:g:opening_eco` -/
  game_opening_eco : String → Option String
  /-- keys `game:g:moves` -/
  game_moves : String → List String
  /-- key `analytics:top_wins` -/
  analytics_top_wins : List (String × Nat)
  /-- key `analytics:top_losses` -/
  analytics_top_losses : List (String × Nat)
  /-- key `analytics:most_freq_opening` -/
  analytics_most_freq_opening : Option String
  /-- key `analytics:most_freq_opening:count` -/
  analytics_most_freq_opening_count : Option Nat
  /-- key `analytics:shortest_game` -/
  analytics_shortest_game : Option String
  /-- key `analytics:shortest_game:number_of_turns` -/
  analytics_shortest_game_turns : Option Nat
  /-- key `analytics:least_common_seqs` -/
  analytics_least_common_seqs : Finset String
  /-- key `analytics:least_common_seq:count` -/
  analytics_least_common_seq_count : Option Nat
  /-- key `analytics:most_common_seqs` -/
  analytics_most_common_seqs : Finset String
  /-- key `analytics:most_common_seq:count` -/
  analytics_most_common_seq_count : Option Nat

/-- The empty database. -/
def emptyStore : Store where
  global_players_ids := ∅
  global_players_emails := ∅
  player_email := fun _ => none
  player_wins := fun _ => 0
  player_losses := fun _ => 0
  player_draws := fun _ => 0
  player_games_list := fun _ => []
  player_games_set := fun _ => ∅
  player_opponents := fun _ => ∅
  player_opening_count := fun _ _ => 0
  player_most_freq_opening := fun _ => none
  player_most_freq_opening_count := fun _ => none
  player_friend_group := fun _ => none
  player_scheduled_games := fun _ => []
  player_scheduled_opponent := fun _ _ => none
  global_games_ids := ∅
  global_friend_group := fun _ => ∅
  next_fid := 0
  global_seq_games := fun _ => ∅
  global_seq_count := []
  global_opening_count := fun _ => 0
  game_winner := fun _ => none
  game_victory_status := fun _ => none
  game_turns := fun _ => none
  game_checks := fun _ => none
  game_white_player := fun _ => none
  game_black_player := fun _ => none
  game_opening_eco := fun _ => none
  game_moves := fun _ => []
  analytics_top_wins := []
  analytics_top_losses := []
  analytics_most_freq_opening := none
  analytics_most_freq_opening_count := none
  analytics_shortest_game := none
  analytics_shortest_game_turns := none
  analytics_least_common_seqs := ∅
  analytics_least_common_seq_count := none
  analytics_most_common_seqs := ∅
  analytics_most_common_seq_count := none

/-! ### Input records (`models.py`) -/

/-- `PlayerTypedDict`. -/
structure Player : Type where
  user_id : String
  email : String
deriving DecidableEq

/-- `ScheduleTypedDict`. -/
structure Schedule : Type where
  game_id : String
  player_1 : String
  player_2 : String
deriving DecidableEq

/-- `GameRecordTypedDict`; `winner` is one of "white", "black", "draw", and
`number_of_turns` (string or int in the source, always passed through
`int(...)` before use) is a `Nat`. -/
structure GameRecord : Type where
  game_id : String
  moveset : Moveset
  winner : String
  victory_status : String
  number_of_turns : Nat
  white_player_id : String
  black_player_id : String
  opening_eco : String
deriving DecidableEq

/-- Errors escaping the write functions. `boardGameClubNotUnique` is the
domain exception `BoardGameClubNotUniqueError` of `models.py`;
`jsonDecodeFailure` is Python's `json.JSONDecodeError` escaping from
`__parse_moveset`; `typeFailure` is the `TypeError` raised by
`__find_all_three_move_sequences` when the parsed payload is neither a
list of strings nor a string. -/
inductive WriteError : Type
  | boardGameClubNotUnique : WriteError
  | jsonDecodeFailure : WriteError
  | typeFailure : WriteError
deriving DecidableEq

/-- Whether an error belongs to the application's own exception taxonomy of
`models.py`, that is, is a subclass of `BoardGameClubRootError`.
`json.JSONDecodeError` is a subclass of Python's built-in `ValueError`, and
`TypeError` is a built-in: neither is a `BoardGameClubRootError`. -/
def WriteError.isClubError : WriteError → Bool
  | WriteError.boardGameClubNotUnique => true
  | WriteError.jsonDecodeFailure => false
  | WriteError.typeFailure => false

/-! ### Write functions -/

/-- Embedding of `add_player`. `__assert_player_is_new` performs `SADD` on
`global:players:ids` and raises `BoardGameClubNotUniqueError` when the id
was already present (in which case the set itself is unchanged). -/
def add_player (st : Store) (p : Player) : Store × Option WriteError :=
  if p.user_id ∈ st.global_players_ids then (st, some WriteError.boardGameClubNotUnique)
  else
    let st1 := { st with global_players_ids := insert p.user_id st.global_players_ids }
    let st2 := { st1 with
      player_email := fupd st1.player_email p.user_id (some p.email),
      player_wins := fupd st1.player_wins p.user_id 0,
      player_losses := fupd st1.player_losses p.user_id 0,
      player_draws := fupd st1.player_draws p.user_id 0,
      player_most_freq_opening_count := fupd st1.player_most_freq_opening_count p.user_id (some 0) }
    ({ st2 with global_players_emails := insert p.email st2.global_players_emails }, none)

/-- Embedding of `add_schedule`. `__assert_game_is_new` checks the schedule's
game id against `global:games:ids`, the same registry `add_game_record`
uses. Key expiry is not modelled (nothing here reads the clock). -/
def add_schedule (st : Store) (s : Schedule) : Store × Option WriteError :=
  if s.game_id ∈ st.global_games_ids then (st, some WriteError.boardGameClubNotUnique)
  else
    let st1 := { st with global_games_ids := insert s.game_id st.global_games_ids }
    let opp := fupd2 (fupd2 st1.player_scheduled_opponent s.player_1 s.game_id
      (some s.player_2)) s.player_2 s.game_id (some s.player_1)
    let st2 := { st1 with player_scheduled_opponent := opp }
    let sg1 := fupd st2.player_scheduled_games s.player_1
      ((s.game_id :: st2.player_scheduled_games s.player_1).take 200)
    let st3 := { st2 with player_scheduled_games := sg1 }
    let sg2 := fupd st3.player_scheduled_games s.player_2
      ((s.game_id :: st3.player_scheduled_games s.player_2).take 200)
    ({ st3 with player_scheduled_games := sg2 }, none)

/-- Embedding of `__new_fid`: a fresh group id. The code draws `uuid4` hex
strings until one has no existing `global:friend_group:{fid}` key; the model
draws the next unused natural, with the invariant (maintained by every run
from `emptyStore`) that all groups at ids `≥ next_fid` are empty. -/
def new_fid (st : Store) : Nat := st.next_fid

/-- Embedding of `__update_friend_groups`. -/
def update_friend_groups (st : Store) (pid1 pid2 : String) : Store :=
  match st.player_friend_group pid1, st.player_friend_group pid2 with
  | none, none =>
    -- Case 1: neither in a group -> create new
    let gid := new_fid st
    { st with
      global_friend_group := fupd st.global_friend_group gid
        (insert pid1 (insert pid2 (st.global_friend_group gid))),
      player_friend_group :=
        fupd (fupd st.player_friend_group pid1 (some gid)) pid2 (some gid),
      next_fid := st.next_fid + 1 }
  | some gid, none =>
    -- Case 2: only pid1 in a group -> add pid2 to it
    { st with
      global_friend_group := fupd st.global_friend_group gid
        (insert pid2 (st.global_friend_group gid)),
      player_friend_group := fupd st.player_friend_group pid2 (some gid) }
  | none, some gid =>
    -- Case 2: only pid2 in a group -> add pid1 to it
    { st with
      global_friend_group := fupd st.global_friend_group gid
        (insert pid1 (st.global_friend_group gid)),
      player_friend_group := fupd st.player_friend_group pid1 (some gid) }
  | some fid1, some fid2 =>
    -- Case 3: both already in the same group -> nothing to do
    if fid1 = fid2 then st
    else
      -- Case 4: different groups -> merge smaller into larger
      let size1 := (st.global_friend_group fid1).card
      let size2 := (st.global_friend_group fid2).card
      let big := if size1 ≥ size2 then fid1 else fid2
      let small := if size1 ≥ size2 then fid2 else fid1
      let members := st.global_friend_group small
      if members = ∅ then st
      else
        { st with
          global_friend_group :=
            fupd (fupd st.global_friend_group big (st.global_friend_group big ∪ members))
              small ∅,
          player_friend_group := fun p =>
              if p ∈ members then some big else st.player_friend_group p }

/-- Embedding of `__update_player_keys` for one of the two players of a game
record: outcome counters and leaderboards, game lists, opponents, and the
per-player most-frequent-opening tracker. -/
def update_player_keys (st : Store) (g : GameRecord) (player_color : String)
    (player_id : String) (opponent_color : String) (opponent_id : String) : Store :=
  let st1 :=
    if g.winner = player_color then
      let wins := st.player_wins player_id + 1
      let s := { st with player_wins := fupd st.player_wins player_id wins }
      { s with analytics_top_wins := update_top_list s.analytics_top_wins player_id wins }
    else if g.winner = opponent_color then
      let losses := st.player_losses player_id + 1
      let s := { st with player_losses := fupd st.player_losses player_id losses }
      { s with analytics_top_losses := update_top_list s.analytics_top_losses player_id losses }
    else
      { st with player_draws := fupd st.player_draws player_id (st.player_draws player_id + 1) }
  let gl := fupd st1.player_games_list player_id
    (st1.player_games_list player_id ++ [g.game_id])
  let st2 := { st1 with player_games_list := gl }
  let gs := fupd st2.player_games_set player_id
    (insert g.game_id (st2.player_games_set player_id))
  let st3 := { st2 with player_games_set := gs }
  let opp := fupd st3.player_opponents player_id
    (insert opponent_id (st3.player_opponents player_id))
  let st4 := { st3 with player_opponents := opp }
  let this_game_eco_count := st4.player_opening_count player_id g.opening_eco + 1
  let oc := fupd2 st4.player_opening_count player_id g.opening_eco this_game_eco_count
  let st5 := { st4 with player_opening_count := oc }
  match st5.player_most_freq_opening_count player_id with
  | none =>
    { st5 with
      player_most_freq_opening :=
        fupd st5.player_most_freq_opening player_id (some g.opening_eco),
      player_most_freq_opening_count :=
        fupd st5.player_most_freq_opening_count player_id (some this_game_eco_count) }
  | some most_used_eco_count =>
    if this_game_eco_count > most_used_eco_count then
      { st5 with
        player_most_freq_opening :=
          fupd st5.player_most_freq_opening player_id (some g.opening_eco),
        player_most_freq_opening_count :=
          fupd st5.player_most_freq_opening_count player_id (some this_game_eco_count) }
    else st5

/-- Embedding of `__update_game_keys`. (In redis-py an `RPUSH` with an empty
argument list would be rejected by the server; an empty moveset never
reaches a successful run in the scenarios settled here, and the list
append below is its harmless no-op rendering.) -/
def update_game_keys (st : Store) (g : GameRecord) (moves : List String) : Store :=
  { st with
    game_winner := fupd st.game_winner g.game_id (some g.winner),
    game_victory_status := fupd st.game_victory_status g.game_id (some g.victory_status),
    game_turns := fupd st.game_turns g.game_id (some g.number_of_turns),
    game_checks := fupd st.game_checks g.game_id (some (find_number_of_checks moves)),
    game_white_player := fupd st.game_white_player g.game_id (some g.white_player_id),
    game_black_player := fupd st.game_black_player g.game_id (some g.black_player_id),
    game_opening_eco := fupd st.game_opening_eco g.game_id (some g.opening_eco),
    game_moves := fupd st.game_moves g.game_id (st.game_moves g.game_id ++ moves) }

/-- Embedding of `__update_most_common_seqs`. -/
def update_most_common_seqs (st : Store) (three_move_sequence : String) (new_count : Nat) :
    Store :=
  match st.analytics_most_common_seq_count with
  | none =>
    { st with
      analytics_most_common_seqs := {three_move_sequence},
      analytics_most_common_seq_count := some new_count }
  | some most_count =>
    if new_count > most_count then
      { st with
        analytics_most_common_seqs := {three_move_sequence},
        analytics_most_common_seq_count := some new_count }
    else if new_count = most_count then
      { st with analytics_most_common_seqs :=
          insert three_move_sequence st.analytics_most_common_seqs }
    else st

/-- Loop body of `__find_least_common_seqs` for one scanned counter key:
`if cnt and (min_count is None or cnt < min_count)` starts a new minimum,
`elif cnt == min_count` appends to the tied cohort. -/
def find_least_step (acc : Option Nat × List String) (p : String × Nat) :
    Option Nat × List String :=
  if p.2 ≠ 0 ∧ (acc.1 = none ∨ ∃ m, acc.1 = some m ∧ p.2 < m) then
    (some p.2, [p.1])
  else if some p.2 = acc.1 then
    (acc.1, acc.2 ++ [p.1])
  else acc

/-- Embedding of `__find_least_common_seqs`: scan every `global:seq:*:count`
key, tracking the minimum nonzero count and the sequences achieving it. -/
def find_least_common_seqs (st : Store) : Option Nat × List String :=
  st.global_seq_count.foldl find_least_step (none, [])

/-- Embedding of `__update_least_common_seqs`. -/
def update_least_common_seqs (st : Store) (three_move_sequence : String) (new_count : Nat) :
    Store :=
  match st.analytics_least_common_seq_count with
  | none =>
    -- fresh DB
    { st with
      analytics_least_common_seqs := {three_move_sequence},
      analytics_least_common_seq_count := some new_count }
  | some least_count =>
    if new_count < least_count then
      -- new global minimum
      { st with
        analytics_least_common_seqs := {three_move_sequence},
        analytics_least_common_seq_count := some new_count }
    else if new_count = least_count then
      -- exact tie with current minimum
      { st with analytics_least_common_seqs :=
          insert three_move_sequence st.analytics_least_common_seqs }
    else if three_move_sequence ∈ st.analytics_least_common_seqs then
      -- sequence lost "least" status
      let remaining := st.analytics_least_common_seqs.erase three_move_sequence
      let st1 := { st with analytics_least_common_seqs := remaining }
      if remaining.card = 0 then
        -- we lost the last least-common sequence -> find the new minimum
        match find_least_common_seqs st1 with
        | (new_min_count, new_min_seqs) =>
          if new_min_seqs ≠ [] then
            { st1 with
              analytics_least_common_seqs := new_min_seqs.toFinset,
              analytics_least_common_seq_count := new_min_count }
          else st1
      else st1
    else st

/-- Body of the loop of `__update_common_seqs` for one sequence: increment
its global counter and feed the new count to the most- and least-common
trackers. -/
def update_common_seqs_step (st : Store) (three_move_sequence : String) : Store :=
  let new_count := ((assocGet st.global_seq_count three_move_sequence).getD 0) + 1
  let st1 := { st with global_seq_count := assocIncr st.global_seq_count three_move_sequence }
  update_least_common_seqs
    (update_most_common_seqs st1 three_move_sequence new_count)
    three_move_sequence new_count

/-- Embedding of `__update_common_seqs`. -/
def update_common_seqs (st : Store) (three_move_sequences : List String) : Store :=
  three_move_sequences.foldl update_common_seqs_step st

/-- Embedding of `__update_most_freq_opening` (the global tracker). -/
def update_most_freq_opening (st : Store) (g : GameRecord) (this_game_eco_count : Nat) :
    Store :=
  match st.analytics_most_freq_opening_count with
  | none =>
    { st with
      analytics_most_freq_opening := some g.opening_eco,
      analytics_most_freq_opening_count := some this_game_eco_count }
  | some most_used_eco_count =>
    if this_game_eco_count > most_used_eco_count then
      { st with
        analytics_most_freq_opening := some g.opening_eco,
        analytics_most_freq_opening_count := some this_game_eco_count }
    else st

/-- Embedding of `__update_shortest_game`. -/
def update_shortest_game (st : Store) (g : GameRecord) : Store :=
  match st.analytics_shortest_game_turns with
  | none =>
    { st with
      analytics_shortest_game := some g.game_id,
      analytics_shortest_game_turns := some g.number_of_turns }
  | some current_shortest_game_turns =>
    if g.number_of_turns < current_shortest_game_turns then
      { st with
        analytics_shortest_game := some g.game_id,
        analytics_shortest_game_turns := some g.number_of_turns }
    else st

/-- Embedding of `add_game_record`. On a duplicate id the function raises
before any other write. On a moveset string `json.loads` rejects, the
raised `JSONDecodeError` escapes after the id reservation but before any
other write, so the partially-written store is returned with the error. A
payload `json.loads` accepts flows on as its token sequence (`pyTokens`): a
list of strings as itself, a string character-wise; a payload with neither
shape dies in the window derivation with a `TypeError`, again right after
the id reservation. -/
def add_game_record (st : Store) (g : GameRecord) : Store × Option WriteError :=
  if g.game_id ∈ st.global_games_ids then (st, some WriteError.boardGameClubNotUnique)
  else
    let st0 := { st with global_games_ids := insert g.game_id st.global_games_ids }
    match parse_moveset g.moveset with
    | Except.error _ => (st0, some WriteError.jsonDecodeFailure)
    | Except.ok v =>
      match pyTokens v with
      | none => (st0, some WriteError.typeFailure)
      | some moves =>
        let three_move_sequences := find_all_three_move_sequences moves
        let st1 := three_move_sequences.foldl
          (fun s seq =>
            let sg := fupd s.global_seq_games seq (insert g.game_id (s.global_seq_games seq))
            { s with global_seq_games := sg }) st0
        let st2 := update_player_keys st1 g "white" g.white_player_id "black" g.black_player_id
        let st3 := update_player_keys st2 g "black" g.black_player_id "white" g.white_player_id
        let st4 := update_game_keys st3 g moves
        let st5 := update_common_seqs st4 three_move_sequences
        let this_game_eco_count := st5.global_opening_count g.opening_eco + 1
        let goc := fupd st5.global_opening_count g.opening_eco this_game_eco_count
        let st6 := { st5 with global_opening_count := goc }
        let st7 := update_shortest_game st6 g
        let st8 := update_most_freq_opening st7 g this_game_eco_count
        (update_friend_groups st8 g.white_player_id g.black_player_id, none)

/-! ### Read side (`graph_funcs.py`) -/

/-- Embedding of `get_friends_of_friends`: the member set of P0's friend
group, minus P0's direct opponents (`SDIFF`), minus P0 itself (`discard`);
the empty set when P0 has no friend group. The Python function returns the
resulting set as a list in unspecified order, so the model returns the set. -/
def get_friends_of_friends (st : Store) (pid : String) : Finset String :=
  match st.player_friend_group pid with
  | none => ∅
  | some fid => ((st.global_friend_group fid) \ (st.player_opponents pid)).erase pid

/-! ### Frame lemmas: which store fields each write helper leaves alone -/

theorem update_player_keys_games_ids (st : Store) (g : GameRecord) (a pid b oid : String) :
    (update_player_keys st g a pid b oid).global_games_ids = st.global_games_ids := by
  unfold update_player_keys; (try dsimp only); repeat' split
  all_goals rfl

theorem update_player_keys_seq_count (st : Store) (g : GameRecord) (a pid b oid : String) :
    (update_player_keys st g a pid b oid).global_seq_count = st.global_seq_count := by
  unfold update_player_keys; (try dsimp only); repeat' split
  all_goals rfl

theorem update_player_keys_seq_games (st : Store) (g : GameRecord) (a pid b oid : String) :
    (update_player_keys st g a pid b oid).global_seq_games = st.global_seq_games := by
  unfold update_player_keys; (try dsimp only); repeat' split
  all_goals rfl

theorem update_game_keys_games_ids (st : Store) (g : GameRecord) (moves : List String) :
    (update_game_keys st g moves).global_games_ids = st.global_games_ids := rfl

theorem update_game_keys_seq_count (st : Store) (g : GameRecord) (moves : List String) :
    (update_game_keys st g moves).global_seq_count = st.global_seq_count := rfl

theorem update_game_keys_seq_games (st : Store) (g : GameRecord) (moves : List String) :
    (update_game_keys st g moves).global_seq_games = st.global_seq_games := rfl

theorem update_most_common_seqs_games_ids (st : Store) (s : String) (n : Nat) :
    (update_most_common_seqs st s n).global_games_ids = st.global_games_ids := by
  unfold update_most_common_seqs; repeat' split
  all_goals rfl

theorem update_most_common_seqs_seq_count (st : Store) (s : String) (n : Nat) :
    (update_most_common_seqs st s n).global_seq_count = st.global_seq_count := by
  unfold update_most_common_seqs; repeat' split
  all_goals rfl

theorem update_most_common_seqs_seq_games (st : Store) (s : String) (n : Nat) :
    (update_most_common_seqs st s n).global_seq_games = st.global_seq_games := by
  unfold update_most_common_seqs; repeat' split
  all_goals rfl

theorem update_most_common_seqs_least_seqs (st : Store) (s : String) (n : Nat) :
    (update_most_common_seqs st s n).analytics_least_common_seqs =
      st.analytics_least_common_seqs := by
  unfold update_most_common_seqs; repeat' split
  all_goals rfl

theorem update_most_common_seqs_least_count (st : Store) (s : String) (n : Nat) :
    (update_most_common_seqs st s n).analytics_least_common_seq_count =
      st.analytics_least_common_seq_count := by
  unfold update_most_common_seqs; repeat' split
  all_goals rfl

theorem update_least_common_seqs_games_ids (st : Store) (s : String) (n : Nat) :
    (update_least_common_seqs st s n).global_games_ids = st.global_games_ids := by
  unfold update_least_common_seqs; (try dsimp only); repeat' split
  all_goals rfl

theorem update_least_common_seqs_seq_count (st : Store) (s : String) (n : Nat) :
    (update_least_common_seqs st s n).global_seq_count = st.global_seq_count := by
  unfold update_least_common_seqs; (try dsimp only); repeat' split
  all_goals rfl

theorem update_least_common_seqs_seq_games (st : Store) (s : String) (n : Nat) :
    (update_least_common_seqs st s n).global_seq_games = st.global_seq_games := by
  unfold update_least_common_seqs; (try dsimp only); repeat' split
  all_goals rfl

theorem update_common_seqs_step_games_ids (st : Store) (s : String) :
    (update_common_seqs_step st s).global_games_ids = st.global_games_ids := by
  unfold update_common_seqs_step; dsimp only
  rw [update_least_common_seqs_games_ids, update_most_common_seqs_games_ids]

theorem update_common_seqs_step_seq_games (st : Store) (s : String) :
    (update_common_seqs_step st s).global_seq_games = st.global_seq_games := by
  unfold update_common_seqs_step; dsimp only
  rw [update_least_common_seqs_seq_games, update_most_common_seqs_seq_games]

theorem update_common_seqs_step_seq_count (st : Store) (s : String) :
    (update_common_seqs_step st s).global_seq_count = assocIncr st.global_seq_count s := by
  unfold update_common_seqs_step; dsimp only
  rw [update_least_common_seqs_seq_count, update_most_common_seqs_seq_count]

theorem update_common_seqs_games_ids (st : Store) (l : List String) :
    (update_common_seqs st l).global_games_ids = st.global_games_ids := by
  induction l generalizing st with
  | nil => rfl
  | cons x xs ih =>
    show (update_common_seqs (update_common_seqs_step st x) xs).global_games_ids = _
    rw [ih, update_common_seqs_step_games_ids]

theorem update_common_seqs_seq_games (st : Store) (l : List String) :
    (update_common_seqs st l).global_seq_games = st.global_seq_games := by
  induction l generalizing st with
  | nil => rfl
  | cons x xs ih =>
    show (update_common_seqs (update_common_seqs_step st x) xs).global_seq_games = _
    rw [ih, update_common_seqs_step_seq_games]

theorem update_shortest_game_games_ids (st : Store) (g : GameRecord) :
    (update_shortest_game st g).global_games_ids = st.global_games_ids := by
  unfold update_shortest_game; repeat' split
  all_goals rfl

theorem update_shortest_game_seq_count (st : Store) (g : GameRecord) :
    (update_shortest_game st g).global_seq_count = st.global_seq_count := by
  unfold update_shortest_game; repeat' split
  all_goals rfl

theorem update_shortest_game_seq_games (st : Store) (g : GameRecord) :
    (update_shortest_game st g).global_seq_games = st.global_seq_games := by
  unfold update_shortest_game; repeat' split
  all_goals rfl

theorem update_most_freq_opening_games_ids (st : Store) (g : GameRecord) (n : Nat) :
    (update_most_freq_opening st g n).global_games_ids = st.global_games_ids := by
  unfold update_most_freq_opening; repeat' split
  all_goals rfl

theorem update_most_freq_opening_seq_count (st : Store) (g : GameRecord) (n : Nat) :
    (update_most_freq_opening st g n).global_seq_count = st.global_seq_count := by
  unfold update_most_freq_opening; repeat' split
  all_goals rfl

theorem update_most_freq_opening_seq_games (st : Store) (g : GameRecord) (n : Nat) :
    (update_most_freq_opening st g n).global_seq_games = st.global_seq_games := by
  unfold update_most_freq_opening; repeat' split
  all_goals rfl

theorem update_friend_groups_games_ids (st : Store) (p1 p2 : String) :
    (update_friend_groups st p1 p2).global_games_ids = st.global_games_ids := by
  unfold update_friend_groups; (try dsimp only); repeat' split
  all_goals rfl

theorem update_friend_groups_seq_count (st : Store) (p1 p2 : String) :
    (update_friend_groups st p1 p2).global_seq_count = st.global_seq_count := by
  unfold update_friend_groups; (try dsimp only); repeat' split
  all_goals rfl

theorem update_friend_groups_seq_games (st : Store) (p1 p2 : String) :
    (update_friend_groups st p1 p2).global_seq_games = st.global_seq_games := by
  unfold update_friend_groups; (try dsimp only); repeat' split
  all_goals rfl

/-- The `global:seq:{seq}:games` fold at the start of `add_game_record`
touches neither the id registry nor the sequence counters. -/
theorem seq_games_fold_games_ids (l : List String) (gid : String) (st : Store) :
    (l.foldl (fun s seq =>
      let sg := fupd s.global_seq_games seq (insert gid (s.global_seq_games seq))
      { s with global_seq_games := sg }) st).global_games_ids = st.global_games_ids := by
  induction l generalizing st with
  | nil => rfl
  | cons x xs ih => simpa using ih _

theorem seq_games_fold_seq_count (l : List String) (gid : String) (st : Store) :
    (l.foldl (fun s seq =>
      let sg := fupd s.global_seq_games seq (insert gid (s.global_seq_games seq))
      { s with global_seq_games := sg }) st).global_seq_count = st.global_seq_count := by
  induction l generalizing st with
  | nil => rfl
  | cons x xs ih => simpa using ih _

/-! ### Sample inputs used by concrete witnesses -/

/-- A well-formed game record (Scenario A of the design notes). -/
def sampleGame : GameRecord where
  game_id := "g1"
  moveset := Moveset.ofList ["e4", "e5", "Nf3"]
  winner := "white"
  victory_status := "mate"
  number_of_turns := 10
  white_player_id := "p1"
  black_player_id := "p2"
  opening_eco := "C1"

/-- A second record reusing the id `g1` with different data (Scenario B). -/
def sampleGameDup : GameRecord where
  game_id := "g1"
  moveset := Moveset.ofList ["d4", "d5"]
  winner := "black"
  victory_status := "resign"
  number_of_turns := 31
  white_player_id := "p3"
  black_player_id := "p4"
  opening_eco := "D00"

/-- A record whose string moveset is not parseable as a JSON list. -/
def sampleBadGame : GameRecord where
  game_id := "g2"
  moveset := Moveset.ofString "oops"
  winner := "white"
  victory_status := "mate"
  number_of_turns := 5
  white_player_id := "p1"
  black_player_id := "p2"
  opening_eco := "B20"

/-- A record whose string moveset is valid JSON yet a top-level string, not
a list: `json.loads("'abcd'".replace(singleQuote, doubleQuote))` returns
the string "abcd", which the ingestion code then walks character-wise. -/
def sampleStrGame : GameRecord where
  game_id := "g4"
  moveset := Moveset.ofString (String.mk [singleQuote, 'a', 'b', 'c', 'd', singleQuote])
  winner := "draw"
  victory_status := "draw"
  number_of_turns := 4
  white_player_id := "p1"
  black_player_id := "p2"
  opening_eco := "A00"

/-- A second well-formed record, linking `p2` with `p3` (Scenario C shape). -/
def sampleGameBC : GameRecord where
  game_id := "g3"
  moveset := Moveset.ofList ["c4", "e5", "Nc3", "Nf6"]
  winner := "black"
  victory_status := "resign"
  number_of_turns := 40
  white_player_id := "p2"
  black_player_id := "p3"
  opening_eco := "A20"

/-- A sample schedule row. -/
def sampleSchedule : Schedule where
  game_id := "s1"
  player_1 := "p1"
  player_2 := "p2"

/-- A game record reusing the schedule id `s1`. -/
def sampleGameS1 : GameRecord := { sampleGame with game_id := "s1" }

/-- A schedule reusing the game-record id `g1`. -/
def sampleScheduleG1 : Schedule := { sampleSchedule with game_id := "g1" }

/-- A player whose user id coincides with the game-record id `g1`. -/
def samplePlayerG1 : Player := { user_id := "g1", email := "g1@example.com" }

/-! ### Characterization of the per-player most-frequent-opening update -/

/-- The per-player most-frequent-opening tracker of `__update_player_keys`
(lines 194-201): the observed count is the just-incremented per-player
opening counter; a missing recorded count or a strictly larger observation
installs a new leader, anything else leaves leader and count untouched. -/
theorem update_player_keys_most_freq (st : Store) (g : GameRecord)
    (a pid b oid : String) :
    ((update_player_keys st g a pid b oid).player_most_freq_opening pid,
     (update_player_keys st g a pid b oid).player_most_freq_opening_count pid) =
    (match st.player_most_freq_opening_count pid with
     | none => (some g.opening_eco, some (st.player_opening_count pid g.opening_eco + 1))
     | some c =>
       if st.player_opening_count pid g.opening_eco + 1 > c then
         (some g.opening_eco, some (st.player_opening_count pid g.opening_eco + 1))
       else (st.player_most_freq_opening pid, some c)) := by
  unfold update_player_keys
  dsimp only
  repeat' split
  all_goals simp_all [fupd]
  all_goals omega

/-! ### Shape of the derived three-move windows -/

/-- `__find_all_three_move_sequences` yields `n - 2` windows (none when the
moveset has fewer than three tokens). -/
theorem find_all_three_length (moves : List String) :
    (find_all_three_move_sequences moves).length = moves.length - 2 := by
  simp [find_all_three_move_sequences]

/-- The `j`-th derived window is tokens `j`, `j+1`, `j+2` joined by commas. -/
theorem find_all_three_getElem (moves : List String) (j : Nat) (a b c : String)
    (ha : moves[j]? = some a) (hb : moves[j + 1]? = some b) (hc : moves[j + 2]? = some c) :
    (find_all_three_move_sequences moves)[j]? = some (a ++ "," ++ b ++ "," ++ c) := by
  have hlen : j + 2 < moves.length := by
    obtain ⟨h, -⟩ := List.getElem?_eq_some.mp hc
    exact h
  have hj : j < moves.length - 2 := by omega
  unfold find_all_three_move_sequences
  rw [List.getElem?_map, List.getElem?_range' 2 1 hj]
  simp only [Option.map_some']
  have hdrop : moves.drop (2 + 1 * j - 2) = a :: b :: c :: moves.drop (j + 3) := by
    have h1 : (2 + 1 * j - 2) = j := by omega
    rw [h1]
    rw [List.drop_eq_getElem_cons (by omega : j < moves.length),
      List.drop_eq_getElem_cons (by omega : j + 1 < moves.length),
      List.drop_eq_getElem_cons (by omega : j + 2 < moves.length)]
    have ea : moves[j] = a := by
      have := List.getElem?_eq_some.mp ha
      rcases this with ⟨h, e⟩
      simpa using e
    have eb : moves[j + 1] = b := by
      have := List.getElem?_eq_some.mp hb
      rcases this with ⟨h, e⟩
      simpa using e
    have ec : moves[j + 2] = c := by
      have := List.getElem?_eq_some.mp hc
      rcases this with ⟨h, e⟩
      simpa using e
    rw [ea, eb, ec]
  rw [hdrop]
  simp [String.intercalate, String.intercalate.go]

/-! ### Counter arithmetic for the sequence counters -/

/-- `INCR` on the incremented key reads back one more than before. -/
theorem assocGet_assocIncr_self (l : List (String × Nat)) (k : String) :
    assocGet (assocIncr l k) k = some ((assocGet l k).getD 0 + 1) := by
  unfold assocIncr
  by_cases hany : l.any (fun p => p.1 = k)
  · rw [if_pos (by simpa using hany)]
    unfold assocGet
    rw [List.find?_map]
    have hpred : ((fun p : String × Nat => decide (p.1 = k)) ∘
        fun p : String × Nat => if p.1 = k then (p.1, p.2 + 1) else p) =
        (fun p : String × Nat => decide (p.1 = k)) := by
      funext p
      by_cases hp : p.1 = k <;> simp [hp]
    rw [hpred]
    obtain ⟨q, hq, hqk⟩ := List.any_eq_true.mp hany
    rcases hfind : l.find? (fun p => decide (p.1 = k)) with _ | r
    · rw [List.find?_eq_none] at hfind
      exact absurd (by simpa using hqk) (by simpa using hfind q hq)
    · have hrk : r.1 = k := by simpa using List.find?_some hfind
      rw [hfind]
      simp [hrk]
  · rw [if_neg (by simpa using hany)]
    unfold assocGet
    rw [List.find?_append]
    have hnone : l.find? (fun p : String × Nat => decide (p.1 = k)) = none := by
      rw [List.find?_eq_none]
      intro x hx
      simp only [decide_eq_true_eq]
      intro hcon
      exact hany (List.any_eq_true.mpr ⟨x, hx, by simpa using hcon⟩)
    rw [hnone]
    simp [List.find?]

/-- `INCR` leaves every other key's counter alone. -/
theorem assocGet_assocIncr_other (l : List (String × Nat)) (k s : String) (h : s ≠ k) :
    assocGet (assocIncr l k) s = assocGet l s := by
  unfold assocIncr
  by_cases hany : l.any (fun p => p.1 = k)
  · rw [if_pos (by simpa using hany)]
    unfold assocGet
    rw [List.find?_map]
    have hpred : ((fun p : String × Nat => decide (p.1 = s)) ∘
        fun p : String × Nat => if p.1 = k then (p.1, p.2 + 1) else p) =
        (fun p : String × Nat => decide (p.1 = s)) := by
      funext p
      by_cases hp : p.1 = k <;> simp [hp]
    rw [hpred]
    rcases hfind : l.find? (fun p => decide (p.1 = s)) with _ | r
    · rw [hfind]
      rfl
    · have hrs : r.1 = s := by simpa using List.find?_some hfind
      have hrk : ¬(r.1 = k) := by rw [hrs]; exact h
      rw [hfind]
      simp [hrk]
  · rw [if_neg (by simpa using hany)]
    unfold assocGet
    rw [List.find?_append]
    have hsingle : List.find? (fun p : String × Nat => decide (p.1 = s)) [(k, 1)] = none := by
      simp [List.find?, Ne.symm h]
    rw [hsingle]
    cases l.find? (fun p : String × Nat => decide (p.1 = s)) <;> rfl

/-- The loop of `__update_common_seqs` adds one to a sequence's counter for
each occurrence of that sequence in the processed list. -/
theorem update_common_seqs_count (l : List String) (st : Store) (s : String) :
    ((assocGet (update_common_seqs st l).global_seq_count s).getD 0) =
      (assocGet st.global_seq_count s).getD 0 + l.count s := by
  induction l generalizing st with
  | nil => simp [update_common_seqs]
  | cons x xs ih =>
    show ((assocGet (update_common_seqs (update_common_seqs_step st x) xs).global_seq_count
      s).getD 0) = _
    rw [ih, update_common_seqs_step_seq_count]
    by_cases hsx : s = x
    · subst hsx
      rw [assocGet_assocIncr_self]
      simp [List.count_cons]
      omega
    · rw [assocGet_assocIncr_other _ _ _ hsx]
      simp [List.count_cons, Ne.symm hsx]

/-- The `global:seq:{seq}:games` fold adds the new game id to exactly the
sets of the derived windows. -/
theorem seq_games_fold_mem (l : List String) (gid : String) (st : Store) (q s : String) :
    (q ∈ (l.foldl (fun st' seq =>
      let sg := fupd st'.global_seq_games seq (insert gid (st'.global_seq_games seq))
      { st' with global_seq_games := sg }) st).global_seq_games s ↔
      (q = gid ∧ s ∈ l) ∨ q ∈ st.global_seq_games s) := by
  induction l generalizing st with
  | nil => simp
  | cons x xs ih =>
    simp only [List.foldl_cons]
    rw [ih]
    by_cases hsx : s = x
    · subst hsx
      simp [fupd]
      tauto
    · simp [fupd, hsx]

/-! ### Claim C8 -/

/-- C8: for a moveset of `n` tokens, `add_game_record` derives exactly the
`n - 2` contiguous length-3 windows (none when `n < 3`), the `j`-th being
tokens `j`, `j+1`, `j+2` joined by commas; each derived window's global
counter grows by exactly its number of occurrences among the windows, and
the game id is added to exactly the derived windows' game sets. -/
theorem C8_three_move_windows (st : Store) (g : GameRecord) (v : JVal)
    (moves : List String)
    (hok : parse_moveset g.moveset = Except.ok v)
    (htok : pyTokens v = some moves)
    (hnew : g.game_id ∉ st.global_games_ids) :
    (find_all_three_move_sequences moves).length = moves.length - 2 ∧
    (∀ j : Nat, ∀ a b c : String, moves[j]? = some a → moves[j + 1]? = some b →
      moves[j + 2]? = some c →
      (find_all_three_move_sequences moves)[j]? = some (a ++ "," ++ b ++ "," ++ c)) ∧
    (∀ s, (assocGet (add_game_record st g).1.global_seq_count s).getD 0 =
      (assocGet st.global_seq_count s).getD 0 +
        (find_all_three_move_sequences moves).count s) ∧
    (∀ s, g.game_id ∈ (add_game_record st g).1.global_seq_games s ↔
      s ∈ find_all_three_move_sequences moves ∨ g.game_id ∈ st.global_seq_games s) := by
  refine ⟨find_all_three_length moves, fun j a b c ha hb hc =>
    find_all_three_getElem moves j a b c ha hb hc, ?_, ?_⟩
  · intro s
    unfold add_game_record
    simp only [hnew, if_false, ite_false]
    rw [hok]
    dsimp only
    rw [htok]
    dsimp only
    simp only [update_friend_groups_seq_count, update_most_freq_opening_seq_count,
      update_shortest_game_seq_count, update_common_seqs_count, update_game_keys_seq_count,
      update_player_keys_seq_count, seq_games_fold_seq_count]
  · intro s
    unfold add_game_record
    simp only [hnew, if_false, ite_false]
    rw [hok]
    dsimp only
    rw [htok]
    dsimp only
    simp only [update_friend_groups_seq_games, update_most_freq_opening_seq_games,
      update_shortest_game_seq_games, update_common_seqs_seq_games,
      update_game_keys_seq_games, update_player_keys_seq_games]
    rw [seq_games_fold_mem]
    tauto

/-- Witness for C8: Scenario A's three-token moveset derives the single
window "e4,e5,Nf3", whose counter and game set receive `g1` once. -/
theorem C8_witness :
    parse_moveset sampleGame.moveset =
      Except.ok (JVal.jarr [JVal.jstr "e4", JVal.jstr "e5", JVal.jstr "Nf3"]) ∧
    pyTokens (JVal.jarr [JVal.jstr "e4", JVal.jstr "e5", JVal.jstr "Nf3"]) =
      some ["e4", "e5", "Nf3"] ∧
    sampleGame.game_id ∉ emptyStore.global_games_ids ∧
    (find_all_three_move_sequences ["e4", "e5", "Nf3"]).length = 1 ∧
    ((assocGet (add_game_record emptyStore sampleGame).1.global_seq_count "e4,e5,Nf3").getD 0 =
      (assocGet emptyStore.global_seq_count "e4,e5,Nf3").getD 0 +
        (find_all_three_move_sequences ["e4", "e5", "Nf3"]).count "e4,e5,Nf3") ∧
    ("g1" ∈ (add_game_record emptyStore sampleGame).1.global_seq_games "e4,e5,Nf3" ↔
      "e4,e5,Nf3" ∈ find_all_three_move_sequences ["e4", "e5", "Nf3"] ∨
      "g1" ∈ emptyStore.global_seq_games "e4,e5,Nf3") :=
  ⟨by rfl, by rfl, by decide, by decide,
   (C8_three_move_windows emptyStore sampleGame
     (JVal.jarr [JVal.jstr "e4", JVal.jstr "e5", JVal.jstr "Nf3"])
     ["e4", "e5", "Nf3"] (by rfl) (by rfl) (by decide)).2.2.1 "e4,e5,Nf3",
   (C8_three_move_windows emptyStore sampleGame
     (JVal.jarr [JVal.jstr "e4", JVal.jstr "e5", JVal.jstr "Nf3"])
     ["e4", "e5", "Nf3"] (by rfl) (by rfl) (by decide)).2.2.2 "e4,e5,Nf3"⟩

/-! ### The leaderboard insert characterized -/

/-- The scan-and-insert of `__update_top_list`: the new entry lands exactly
between the entries of strictly greater score and the rest of the list. -/
theorem top_insert_eq (l : List (String × Nat)) (pid : String) (s : Nat) :
    (match l.find? (fun item => s ≥ item.2) with
     | none => l ++ [(pid, s)]
     | some pivot => linsertBefore l pivot (pid, s)) =
    l.takeWhile (fun e => s < e.2) ++ (pid, s) :: l.dropWhile (fun e => s < e.2) := by
  induction l with
  | nil => rfl
  | cons x xs ih =>
    by_cases hx : s ≥ x.2
    · rw [List.find?_cons_of_pos _ (by simpa using hx)]
      rw [List.takeWhile_cons_of_neg (by simpa using hx),
        List.dropWhile_cons_of_neg (by simpa using hx)]
      simp [linsertBefore]
    · rw [List.find?_cons_of_neg _ (by simpa using hx)]
      rw [List.takeWhile_cons_of_pos (by simp; omega),
        List.dropWhile_cons_of_pos (by simp; omega)]
      cases hfind : xs.find? (fun item => s ≥ item.2) with
      | none =>
        rw [hfind] at ih
        simp only [List.cons_append]
        exact congrArg (List.cons x) (by simpa using ih)
      | some piv =>
        rw [hfind] at ih
        have hpiv : s ≥ piv.2 := by simpa using List.find?_some hfind
        have hne : x ≠ piv := by
          intro hcon
          rw [hcon] at hx
          exact hx hpiv
        show linsertBefore (x :: xs) piv (pid, s) = _
        rw [linsertBefore.eq_def]
        simp only [if_neg hne]
        exact congrArg (List.cons x) (by simpa using ih)

/-- Full characterization of `__update_top_list`: stale-entry removal, then
insertion before the first entry of score ≤ the new score, then the trim. -/
theorem update_top_list_eq (top : List (String × Nat)) (pid : String) (s : Nat) :
    update_top_list top pid s =
      ((top.filter (fun e => e ≠ (pid, s - 1))).takeWhile (fun e => s < e.2) ++
        (pid, s) :: (top.filter (fun e => e ≠ (pid, s - 1))).dropWhile
          (fun e => s < e.2)).take 10 := by
  unfold update_top_list
  dsimp only
  rw [top_insert_eq]

/-- Serial leaderboard maintenance exactly as the win branch of
`__update_player_keys` performs it: each call increments the player's win
counter and immediately calls `__update_top_list` with the new value. -/
def run_top_wins (pids : List String) : (String → Nat) × List (String × Nat) :=
  pids.foldl
    (fun acc pid =>
      let wins := acc.1 pid + 1
      (fupd acc.1 pid wins, update_top_list acc.2 pid wins))
    (fun _ => 0, [])

/-! ### Claim C3 -/

/-- C3 (amended): `__update_top_list` inserts the new entry before the
first entry whose score is ≤ the new score, so among equal scores the
newly inserted entry goes ahead of (closer to the head than) the
earlier-admitted entries of that score: every entry left ahead of the new
one has a strictly greater score. -/
theorem C3_new_tied_entry_goes_ahead (top : List (String × Nat)) (pid : String) (s : Nat) :
    update_top_list top pid s =
      ((top.filter (fun e => e ≠ (pid, s - 1))).takeWhile (fun e => s < e.2) ++
        (pid, s) :: (top.filter (fun e => e ≠ (pid, s - 1))).dropWhile
          (fun e => s < e.2)).take 10 ∧
    ∀ e : String × Nat,
      e ∈ (top.filter (fun e => e ≠ (pid, s - 1))).takeWhile (fun e => s < e.2) →
      s < e.2 := by
  refine ⟨update_top_list_eq top pid s, ?_⟩
  intro e he
  simpa using List.mem_takeWhile_imp he

/-- Counterexample to C3 as stated: A reaches score 5 first and holds the
head; when B later reaches the equal score 5, B is inserted ahead of A, so
the earlier-admitted tied entry does not stay ahead. -/
theorem C3_counterexample :
    (run_top_wins ["A", "A", "A", "A", "A", "B", "B", "B", "B"]).2 = [("A", 5), ("B", 4)] ∧
    (run_top_wins ["A", "A", "A", "A", "A", "B", "B", "B", "B", "B"]).2 =
      [("B", 5), ("A", 5)] := by decide

/-- Witness for C3 (amended) at a concrete tied insertion. -/
theorem C3_witness :
    update_top_list [("A", 5)] "B" 5 =
      ((([("A", 5)] : List (String × Nat)).filter (fun e => e ≠ ("B", 4))).takeWhile
          (fun e => 5 < e.2) ++
        ("B", 5) :: (([("A", 5)] : List (String × Nat)).filter
          (fun e => e ≠ ("B", 4))).dropWhile (fun e => 5 < e.2)).take 10 :=
  (C3_new_tied_entry_goes_ahead [("A", 5)] "B" 5).1

/-! ### Claim C5 -/

/-- C5: a game record whose id is already reserved makes `add_game_record`
raise `BoardGameClubNotUniqueError` and perform no other write: the
returned store is exactly the input store, every aggregate included. -/
theorem C5_duplicate_game_id_no_writes (st : Store) (g : GameRecord)
    (h : g.game_id ∈ st.global_games_ids) :
    add_game_record st g = (st, some WriteError.boardGameClubNotUnique) := by
  unfold add_game_record
  simp [h]

/-- Witness for C5: ingesting `g1` and then a second record with id `g1`
raises the uniqueness error and leaves the whole store unchanged. -/
theorem C5_witness :
    sampleGameDup.game_id ∈ (add_game_record emptyStore sampleGame).1.global_games_ids ∧
    add_game_record (add_game_record emptyStore sampleGame).1 sampleGameDup =
      ((add_game_record emptyStore sampleGame).1, some WriteError.boardGameClubNotUnique) :=
  ⟨by decide, C5_duplicate_game_id_no_writes _ _ (by decide)⟩

/-! ### Claim C6 -/

/-- C6 (amended): `models.py` defines no `MalformedCategorySource`, and the
only error of the application's own taxonomy `add_game_record` can raise is
the duplicate-id error, raised only on a duplicate id — so a caller
catching `BoardGameClubRootError` can never skip a malformed record. A
moveset string `json.loads` rejects makes the call fail with
`json.JSONDecodeError`, an error outside the taxonomy, after the game id
has been reserved in the global registry but before any other write. A
moveset that parses to something other than a list is, however, not
necessarily rejected at all: a (nonempty) top-level JSON string is
ingested successfully, character by character. -/
theorem C6_parse_failure_nonclub_error :
    (∀ (st : Store) (g : GameRecord), g.game_id ∉ st.global_games_ids →
      parse_moveset g.moveset = Except.error () →
      add_game_record st g =
        ({ st with global_games_ids := insert g.game_id st.global_games_ids },
         some WriteError.jsonDecodeFailure)) ∧
    (∀ (st : Store) (g : GameRecord) (e : WriteError),
      (add_game_record st g).2 = some e → WriteError.isClubError e = true →
      e = WriteError.boardGameClubNotUnique ∧ g.game_id ∈ st.global_games_ids) ∧
    WriteError.isClubError WriteError.jsonDecodeFailure = false ∧
    (∀ (st : Store) (g : GameRecord) (s : String), g.game_id ∉ st.global_games_ids →
      s ≠ "" → parse_moveset g.moveset = Except.ok (JVal.jstr s) →
      (add_game_record st g).2 = none) := by
  refine ⟨?_, ?_, rfl, ?_⟩
  · intro st g hnew hbad
    unfold add_game_record
    simp only [hnew, if_false, ite_false]
    rw [hbad]
  · intro st g e he hc
    unfold add_game_record at he
    by_cases hdup : g.game_id ∈ st.global_games_ids
    · rw [if_pos hdup] at he
      exact ⟨(Option.some.inj he).symm, hdup⟩
    · rw [if_neg hdup] at he
      dsimp only at he
      rcases hpm : parse_moveset g.moveset with e0 | v
      · rw [hpm] at he
        dsimp only at he
        rw [← Option.some.inj he] at hc
        exact absurd hc (by decide)
      · rw [hpm] at he
        dsimp only at he
        rcases htk : pyTokens v with _ | moves
        · rw [htk] at he
          dsimp only at he
          rw [← Option.some.inj he] at hc
          exact absurd hc (by decide)
        · rw [htk] at he
          dsimp only at he
          exact absurd he (by simp)
  · intro st g s hnew hs hok
    unfold add_game_record
    simp only [hnew, if_false, ite_false]
    rw [hok]
    rfl

/-- Witness for C6 (amended): the unparseable moveset "oops" raises the
decode error with only the id registry written, and the top-level-string
moveset of `sampleStrGame` raises nothing. -/
theorem C6_witness :
    sampleBadGame.game_id ∉ emptyStore.global_games_ids ∧
    parse_moveset sampleBadGame.moveset = Except.error () ∧
    add_game_record emptyStore sampleBadGame =
      ({ emptyStore with
          global_games_ids := insert sampleBadGame.game_id emptyStore.global_games_ids },
       some WriteError.jsonDecodeFailure) ∧
    parse_moveset sampleStrGame.moveset = Except.ok (JVal.jstr "abcd") ∧
    (add_game_record emptyStore sampleStrGame).2 = none :=
  ⟨by decide, by rfl,
   C6_parse_failure_nonclub_error.1 emptyStore sampleBadGame (by decide) (by rfl),
   by rfl,
   C6_parse_failure_nonclub_error.2.2.2 emptyStore sampleStrGame "abcd" (by decide)
     (by decide) (by rfl)⟩

/-- Counterexample to C6 as stated: the moveset string of `sampleStrGame`,
"'abcd'", cannot be parsed into the expected list structure, yet
`add_game_record` raises nothing at all — `json.loads` returns the string
"abcd" and the record is ingested character-wise, writing the character
windows "a,b,c" and "b,c,d" and the per-character move list — so no
`MalformedCategorySource` (which `models.py` does not define) is raised and
the record is not skipped. -/
theorem C6_counterexample :
    (add_game_record emptyStore sampleStrGame).2 = none ∧
    sampleStrGame.game_id ∈
      (add_game_record emptyStore sampleStrGame).1.global_games_ids ∧
    (add_game_record emptyStore sampleStrGame).1.global_seq_games "a,b,c" =
      {sampleStrGame.game_id} ∧
    (assocGet (add_game_record emptyStore sampleStrGame).1.global_seq_count
      "b,c,d").getD 0 = 1 ∧
    (add_game_record emptyStore sampleStrGame).1.game_moves sampleStrGame.game_id =
      ["a", "b", "c", "d"] := by
  refine ⟨by rfl, by decide, by decide, by rfl, by rfl⟩

/-! ### Claim C7 -/

/-- C7: for both scopes of the most-frequent-opening tracker (a player,
through `__update_player_keys`, and the global scope, through
`__update_most_freq_opening`), the recorded leader changes exactly when the
just-incremented count strictly exceeds the recorded leader's count or no
count is recorded; on an exact tie (or smaller count) the previous leader
and its count are kept unchanged. -/
theorem C7_freq_tracker_tie_keeps_leader (st : Store) (g : GameRecord)
    (a pid b oid : String) (n0 : Nat) :
    (st.player_most_freq_opening_count pid = none →
      (update_player_keys st g a pid b oid).player_most_freq_opening pid = some g.opening_eco ∧
      (update_player_keys st g a pid b oid).player_most_freq_opening_count pid =
        some (st.player_opening_count pid g.opening_eco + 1)) ∧
    (∀ c, st.player_most_freq_opening_count pid = some c →
      c < st.player_opening_count pid g.opening_eco + 1 →
      (update_player_keys st g a pid b oid).player_most_freq_opening pid = some g.opening_eco ∧
      (update_player_keys st g a pid b oid).player_most_freq_opening_count pid =
        some (st.player_opening_count pid g.opening_eco + 1)) ∧
    (∀ c, st.player_most_freq_opening_count pid = some c →
      st.player_opening_count pid g.opening_eco + 1 ≤ c →
      (update_player_keys st g a pid b oid).player_most_freq_opening pid =
        st.player_most_freq_opening pid ∧
      (update_player_keys st g a pid b oid).player_most_freq_opening_count pid = some c) ∧
    (st.analytics_most_freq_opening_count = none →
      (update_most_freq_opening st g n0).analytics_most_freq_opening = some g.opening_eco ∧
      (update_most_freq_opening st g n0).analytics_most_freq_opening_count = some n0) ∧
    (∀ c, st.analytics_most_freq_opening_count = some c → c < n0 →
      (update_most_freq_opening st g n0).analytics_most_freq_opening = some g.opening_eco ∧
      (update_most_freq_opening st g n0).analytics_most_freq_opening_count = some n0) ∧
    (∀ c, st.analytics_most_freq_opening_count = some c → n0 ≤ c →
      (update_most_freq_opening st g n0).analytics_most_freq_opening =
        st.analytics_most_freq_opening ∧
      (update_most_freq_opening st g n0).analytics_most_freq_opening_count = some c) := by
  have hc := update_player_keys_most_freq st g a pid b oid
  refine ⟨?_, ?_, ?_, ?_, ?_, ?_⟩
  · intro h
    rw [h] at hc
    simpa using hc
  · intro c h hlt
    rw [h] at hc
    simp only [if_pos (by omega : st.player_opening_count pid g.opening_eco + 1 > c)] at hc
    simpa using hc
  · intro c h hle
    rw [h] at hc
    simp only [if_neg (by omega : ¬(st.player_opening_count pid g.opening_eco + 1 > c))] at hc
    simpa using hc
  · intro h
    unfold update_most_freq_opening
    rw [h]
    exact ⟨rfl, rfl⟩
  · intro c h hlt
    unfold update_most_freq_opening
    rw [h]
    dsimp only
    rw [if_pos (show c < n0 from hlt)]
    exact ⟨rfl, rfl⟩
  · intro c h hle
    unfold update_most_freq_opening
    rw [h]
    dsimp only
    rw [if_neg (show ¬(c < n0) by omega)]
    exact ⟨rfl, h⟩

/-- Witness for C7: a first global observation installs the leader. -/
theorem C7_witness :
    (emptyStore.analytics_most_freq_opening_count = none ∧
      (update_most_freq_opening emptyStore sampleGame 1).analytics_most_freq_opening =
        some sampleGame.opening_eco) ∧
    ((update_most_freq_opening emptyStore sampleGame 1).analytics_most_freq_opening_count =
      some 1) :=
  ⟨⟨rfl, ((C7_freq_tracker_tie_keeps_leader emptyStore sampleGame "w" "p" "b" "o" 1).2.2.2.1
      rfl).1⟩,
   ((C7_freq_tracker_tie_keeps_leader emptyStore sampleGame "w" "p" "b" "o" 1).2.2.2.1 rfl).2⟩

/-! ### Claim C9 -/

/-- C9: the friends-of-friends query returns exactly the members of P0's
friend group minus P0's direct opponents and minus P0 itself, and the empty
result when P0 has no friend group. -/
theorem C9_friends_of_friends_spec (st : Store) (pid q : String) :
    (st.player_friend_group pid = none → get_friends_of_friends st pid = ∅) ∧
    (∀ fid, st.player_friend_group pid = some fid →
      (q ∈ get_friends_of_friends st pid ↔
        q ∈ st.global_friend_group fid ∧ q ∉ st.player_opponents pid ∧ q ≠ pid)) := by
  constructor
  · intro h; simp [get_friends_of_friends, h]
  · intro fid h
    simp only [get_friends_of_friends, h, Finset.mem_erase, Finset.mem_sdiff]
    tauto

/-- Witness for C9: after games p1-p2 and p2-p3, player p3 is a
friend-of-friend of p1. -/
theorem C9_witness :
    ((add_game_record (add_game_record emptyStore sampleGame).1
        sampleGameBC).1.player_friend_group "p1" = some 0) ∧
    ("p3" ∈ get_friends_of_friends
      (add_game_record (add_game_record emptyStore sampleGame).1 sampleGameBC).1 "p1") :=
  ⟨by decide,
   ((C9_friends_of_friends_spec
      (add_game_record (add_game_record emptyStore sampleGame).1 sampleGameBC).1 "p1" "p3").2
     0 (by decide)).mpr ⟨by decide, by decide, by decide⟩⟩

/-! ### Claim C10 -/

/-- C10: scheduled pairings and completed game records share the single
identifier registry `global:games:ids` while players use the separate
`global:players:ids`: a game id known to the registry makes both
`add_schedule` and `add_game_record` raise the uniqueness error without
writing, a fresh id is added to the shared registry by either path, and
`add_player` raises the uniqueness error precisely when the player id is in
the player registry — membership of that id in the game registry is
irrelevant. -/
theorem C10_id_registries (st : Store) (s : Schedule) (g : GameRecord) (p : Player) :
    (s.game_id ∈ st.global_games_ids →
      add_schedule st s = (st, some WriteError.boardGameClubNotUnique)) ∧
    (g.game_id ∈ st.global_games_ids →
      add_game_record st g = (st, some WriteError.boardGameClubNotUnique)) ∧
    (s.game_id ∉ st.global_games_ids → (add_schedule st s).2 = none ∧
      s.game_id ∈ (add_schedule st s).1.global_games_ids) ∧
    (g.game_id ∉ st.global_games_ids →
      g.game_id ∈ (add_game_record st g).1.global_games_ids) ∧
    ((add_player st p).2 = some WriteError.boardGameClubNotUnique ↔
      p.user_id ∈ st.global_players_ids) := by
  refine ⟨?_, ?_, ?_, ?_, ?_⟩
  · intro h; unfold add_schedule; simp [h]
  · intro h; unfold add_game_record; simp [h]
  · intro h; unfold add_schedule; simp [h]
  · intro h
    unfold add_game_record
    simp only [h, if_false, ite_false]
    split
    · exact Finset.mem_insert_self _ _
    · split
      · exact Finset.mem_insert_self _ _
      · dsimp only
        simp only [update_friend_groups_games_ids, update_most_freq_opening_games_ids,
          update_shortest_game_games_ids, update_common_seqs_games_ids,
          update_game_keys_games_ids, update_player_keys_games_ids, seq_games_fold_games_ids]
        exact Finset.mem_insert_self _ _
  · unfold add_player
    by_cases h : p.user_id ∈ st.global_players_ids <;> simp [h]

/-- Witness for C10: `s1` scheduled then reused as a game-record id fails;
`g1` ingested then reused as a schedule id fails; `add_player` with id `g1`
does not raise the uniqueness error. -/
theorem C10_witness :
    (add_game_record (add_schedule emptyStore sampleSchedule).1 sampleGameS1 =
      ((add_schedule emptyStore sampleSchedule).1, some WriteError.boardGameClubNotUnique)) ∧
    (add_schedule (add_game_record emptyStore sampleGame).1 sampleScheduleG1 =
      ((add_game_record emptyStore sampleGame).1, some WriteError.boardGameClubNotUnique)) ∧
    ¬((add_player (add_game_record emptyStore sampleGame).1 samplePlayerG1).2 =
      some WriteError.boardGameClubNotUnique) :=
  ⟨(C10_id_registries _ sampleSchedule sampleGameS1 samplePlayerG1).2.1 (by decide),
   (C10_id_registries _ sampleScheduleG1 sampleGame samplePlayerG1).1 (by decide),
   fun hcon =>
     (by decide : ¬("g1" ∈ (add_game_record emptyStore sampleGame).1.global_players_ids))
       (((C10_id_registries _ sampleScheduleG1 sampleGame samplePlayerG1).2.2.2.2).mp hcon)⟩

/-! ### Claim C2: the least-common tracker -/

/-- An association-list read of `some v` pins an actual entry. -/
theorem assocGet_eq_some_mem (l : List (String × Nat)) (s : String) (v : Nat)
    (h : assocGet l s = some v) : (s, v) ∈ l := by
  unfold assocGet at h
  rcases hfind : l.find? (fun p => decide (p.1 = s)) with _ | q
  · rw [hfind] at h
    exact absurd h (by simp)
  · rw [hfind] at h
    have hq : q.1 = s := by simpa using List.find?_some hfind
    have hv : q.2 = v := by simpa using h
    have : q ∈ l := List.mem_of_find?_eq_some hfind
    rw [show (s, v) = q from by rw [← hq, ← hv]]
    exact this

/-- With no duplicate keys, entries and reads coincide. -/
theorem assoc_mem_get (l : List (String × Nat)) (hnd : (l.map Prod.fst).Nodup)
    (s : String) (v : Nat) : ((s, v) ∈ l ↔ assocGet l s = some v) := by
  constructor
  · intro hmem
    induction l with
    | nil => simp at hmem
    | cons p l ih =>
      simp only [List.map_cons, List.nodup_cons] at hnd
      rcases List.mem_cons.mp hmem with he | hl
      · rw [← he]
        unfold assocGet
        simp [List.find?]
      · have hps : p.1 ≠ s := by
          intro hcon
          exact hnd.1 (by
            rw [hcon]
            exact List.mem_map.mpr ⟨(s, v), hl, rfl⟩)
        unfold assocGet
        rw [List.find?_cons_of_neg _ (by simpa using hps)]
        exact ih hnd.2 hl
  · exact assocGet_eq_some_mem l s v

/-- `INCR` either keeps the key set or appends the new key. -/
theorem assocIncr_keys (l : List (String × Nat)) (k : String) :
    ((assocIncr l k).map Prod.fst) = l.map Prod.fst ∨
    ((assocIncr l k).map Prod.fst) = l.map Prod.fst ++ [k] := by
  unfold assocIncr
  by_cases hany : l.any (fun p => p.1 = k)
  · left
    rw [if_pos (by simpa using hany)]
    rw [List.map_map]
    congr 1
    funext p
    by_cases hp : p.1 = k <;> simp [hp]
  · right
    rw [if_neg (by simpa using hany)]
    simp

/-- `INCR` preserves key uniqueness. -/
theorem assocIncr_keys_nodup (l : List (String × Nat)) (k : String)
    (hnd : (l.map Prod.fst).Nodup) : ((assocIncr l k).map Prod.fst).Nodup := by
  rcases assocIncr_keys l k with h | h
  · rw [h]; exact hnd
  · rw [h]
    unfold assocIncr at h
    by_cases hany : l.any (fun p => p.1 = k)
    · rw [if_pos (by simpa using hany)] at h
      exfalso
      obtain ⟨q, hq, hqk⟩ := List.any_eq_true.mp hany
      have hlen := congrArg List.length h
      simp at hlen
    · have hk : k ∉ l.map Prod.fst := by
        intro hcon
        obtain ⟨q, hq, hqk⟩ := List.mem_map.mp hcon
        exact absurd (List.any_eq_true.mpr ⟨q, hq, by simpa using hqk⟩) hany
      simp [List.nodup_append, hnd, hk]

/-- `INCR` keeps every counter positive. -/
theorem assocIncr_pos (l : List (String × Nat)) (k : String)
    (hpos : ∀ kv ∈ l, 1 ≤ kv.2) : ∀ kv ∈ assocIncr l k, 1 ≤ kv.2 := by
  intro kv hkv
  unfold assocIncr at hkv
  by_cases hany : l.any (fun p => p.1 = k)
  · rw [if_pos (by simpa using hany)] at hkv
    obtain ⟨q, hq, hqe⟩ := List.mem_map.mp hkv
    by_cases hqk : q.1 = k
    · rw [if_pos hqk] at hqe
      rw [← hqe]
      simp
    · rw [if_neg hqk] at hqe
      rw [← hqe]
      exact hpos q hq
  · rw [if_neg (by simpa using hany)] at hkv
    rcases List.mem_append.mp hkv with h | h
    · exact hpos kv h
    · simp only [List.mem_singleton] at h
      rw [h]

/-- `INCR` never leaves the counter table empty. -/
theorem assocIncr_ne_nil (l : List (String × Nat)) (k : String) :
    assocIncr l k ≠ [] := by
  unfold assocIncr
  by_cases hany : l.any (fun p => p.1 = k)
  · rw [if_pos (by simpa using hany)]
    intro hcon
    obtain ⟨q, hq, -⟩ := List.any_eq_true.mp hany
    rw [List.map_eq_nil_iff.mp hcon] at hq
    simp at hq
  · rw [if_neg (by simpa using hany)]
    simp


/-- Loop invariant of `__find_least_common_seqs`: after scanning `seen`,
the accumulator holds the minimum count over `seen` and the keys tied at it
(or nothing when `seen` is empty). -/
def flc_inv (acc : Option Nat × List String) (seen : List (String × Nat)) : Prop :=
  (acc = (none, []) ∧ seen = []) ∨
  (∃ m, acc.1 = some m ∧ (∀ kv ∈ seen, m ≤ kv.2) ∧ (∃ kv ∈ seen, kv.2 = m) ∧
    (∀ s, s ∈ acc.2 ↔ (s, m) ∈ seen))

/-- One scanned counter preserves the rescan loop invariant. -/
theorem flc_inv_step (acc : Option Nat × List String) (seen : List (String × Nat))
    (p : String × Nat) (hp : 1 ≤ p.2) (hinv : flc_inv acc seen) :
    flc_inv (find_least_step acc p) (seen ++ [p]) := by
  rcases hinv with ⟨hacc, hseen⟩ | ⟨m, hm, hmin, hach, hmem⟩
  · subst hseen
    rw [hacc]
    unfold find_least_step
    rw [if_pos (⟨by omega, Or.inl rfl⟩ :
      p.2 ≠ 0 ∧ ((none, ([] : List String)).1 = none ∨
        ∃ m, (none, ([] : List String)).1 = some m ∧ p.2 < m))]
    right
    refine ⟨p.2, rfl, ?_, ?_, ?_⟩
    · intro kv hkv
      simp only [List.nil_append, List.mem_singleton] at hkv
      rw [hkv]
    · exact ⟨p, by simp, rfl⟩
    · intro s
      simp [Prod.ext_iff]
  · unfold find_least_step
    by_cases hlt : p.2 < m
    · rw [if_pos ⟨by omega, Or.inr ⟨m, hm, hlt⟩⟩]
      right
      refine ⟨p.2, rfl, ?_, ?_, ?_⟩
      · intro kv hkv
        rcases List.mem_append.mp hkv with h | h
        · have := hmin kv h
          omega
        · simp only [List.mem_singleton] at h
          rw [h]
      · exact ⟨p, by simp, rfl⟩
      · intro s
        have hnot : (s, p.2) ∉ seen := by
          intro hcon
          have h2 := hmin _ hcon
          simp at h2
          omega
        simp [Prod.ext_iff, hnot]
    · have hc1 : ¬(p.2 ≠ 0 ∧ (acc.1 = none ∨ ∃ m', acc.1 = some m' ∧ p.2 < m')) := by
        rintro ⟨-, hor⟩
        rcases hor with hnone | ⟨m', hm', hlt'⟩
        · rw [hm] at hnone
          exact Option.noConfusion hnone
        · rw [hm] at hm'
          injection hm' with e
          omega
      rw [if_neg hc1]
      by_cases heq : p.2 = m
      · rw [if_pos (show some p.2 = acc.1 by rw [heq, hm])]
        right
        refine ⟨m, hm, ?_, ?_, ?_⟩
        · intro kv hkv
          rcases List.mem_append.mp hkv with h | h
          · exact hmin kv h
          · simp only [List.mem_singleton] at h
            rw [h]
            omega
        · obtain ⟨kv, hkv, he⟩ := hach
          exact ⟨kv, List.mem_append_left _ hkv, he⟩
        · intro s
          rw [List.mem_append, List.mem_append, hmem s, List.mem_singleton,
            List.mem_singleton]
          have hps : (s = p.1) ↔ ((s, m) = p) := by
            constructor
            · intro h
              rw [Prod.ext_iff]
              exact ⟨h, heq.symm⟩
            · intro h
              exact congrArg Prod.fst h
          rw [hps]
      · have hgt : m < p.2 := by omega
        rw [if_neg (show ¬(some p.2 = acc.1) by
          rw [hm]
          intro hc
          injection hc with e
          omega)]
        right
        refine ⟨m, hm, ?_, ?_, ?_⟩
        · intro kv hkv
          rcases List.mem_append.mp hkv with h | h
          · exact hmin kv h
          · simp only [List.mem_singleton] at h
            rw [h]
            omega
        · obtain ⟨kv, hkv, he⟩ := hach
          exact ⟨kv, List.mem_append_left _ hkv, he⟩
        · intro s
          rw [hmem s, List.mem_append, List.mem_singleton]
          constructor
          · exact Or.inl
          · rintro (h | h)
            · exact h
            · exfalso
              have h2 : m = p.2 := congrArg Prod.snd h
              omega


/-- The whole scan preserves the rescan loop invariant. -/
theorem flc_inv_fold (l : List (String × Nat)) (acc : Option Nat × List String)
    (seen : List (String × Nat)) (hl : ∀ kv ∈ l, 1 ≤ kv.2) (hinv : flc_inv acc seen) :
    flc_inv (l.foldl find_least_step acc) (seen ++ l) := by
  induction l generalizing acc seen with
  | nil => simpa using hinv
  | cons p l ih =>
    simp only [List.foldl_cons]
    have hstep := flc_inv_step acc seen p (hl p (List.mem_cons_self p l)) hinv
    have := ih (find_least_step acc p) (seen ++ [p])
      (fun kv hkv => hl kv (List.mem_cons_of_mem _ hkv)) hstep
    rw [List.append_cons]
    exact this

/-- Correctness of the fallback full rescan: on a nonempty table of
positive counters it returns the true minimum and its full tied cohort. -/
theorem find_least_correct (st : Store)
    (hpos : ∀ kv ∈ st.global_seq_count, 1 ≤ kv.2)
    (hne : st.global_seq_count ≠ []) :
    ∃ m, (find_least_common_seqs st).1 = some m ∧
      (∀ kv ∈ st.global_seq_count, m ≤ kv.2) ∧
      (∃ kv ∈ st.global_seq_count, kv.2 = m) ∧
      (∀ s, s ∈ (find_least_common_seqs st).2 ↔ (s, m) ∈ st.global_seq_count) := by
  have h := flc_inv_fold st.global_seq_count (none, []) [] hpos (Or.inl ⟨rfl, rfl⟩)
  simp only [List.nil_append] at h
  rcases h with ⟨hacc, hseen⟩ | ⟨m, hm, hmin, hach, hmem⟩
  · exact absurd hseen hne
  · exact ⟨m, hm, hmin, hach, hmem⟩

/-- Shape of `__update_least_common_seqs` on a fresh database. -/
theorem ulcs_none (st : Store) (x : String) (n : Nat)
    (h : st.analytics_least_common_seq_count = none) :
    update_least_common_seqs st x n =
      { st with
        analytics_least_common_seqs := {x},
        analytics_least_common_seq_count := some n } := by
  unfold update_least_common_seqs
  rw [h]

/-- Shape of `__update_least_common_seqs` on a strictly new minimum. -/
theorem ulcs_lt (st : Store) (x : String) (n m : Nat)
    (h : st.analytics_least_common_seq_count = some m) (hlt : n < m) :
    update_least_common_seqs st x n =
      { st with
        analytics_least_common_seqs := {x},
        analytics_least_common_seq_count := some n } := by
  unfold update_least_common_seqs
  rw [h]
  dsimp only
  rw [if_pos hlt]

/-- Shape of `__update_least_common_seqs` on an exact tie. -/
theorem ulcs_eq (st : Store) (x : String) (n m : Nat)
    (h : st.analytics_least_common_seq_count = some m) (heq : n = m) :
    update_least_common_seqs st x n =
      { st with analytics_least_common_seqs :=
          insert x st.analytics_least_common_seqs } := by
  unfold update_least_common_seqs
  rw [h]
  dsimp only
  rw [if_neg (by omega), if_pos heq]

/-- Shape of `__update_least_common_seqs` when the sequence was not in the
cohort and its count moved past the minimum: nothing changes. -/
theorem ulcs_gt_notmem (st : Store) (x : String) (n m : Nat)
    (h : st.analytics_least_common_seq_count = some m) (hgt : m < n)
    (hx : x ∉ st.analytics_least_common_seqs) :
    update_least_common_seqs st x n = st := by
  unfold update_least_common_seqs
  rw [h]
  dsimp only
  rw [if_neg (by omega), if_neg (by omega), if_neg hx]

/-- Shape of `__update_least_common_seqs` when a cohort member leaves and
others remain tied. -/
theorem ulcs_gt_mem_rem (st : Store) (x : String) (n m : Nat)
    (h : st.analytics_least_common_seq_count = some m) (hgt : m < n)
    (hx : x ∈ st.analytics_least_common_seqs)
    (hrem : (st.analytics_least_common_seqs.erase x).card ≠ 0) :
    update_least_common_seqs st x n =
      { st with analytics_least_common_seqs :=
          st.analytics_least_common_seqs.erase x } := by
  unfold update_least_common_seqs
  rw [h]
  dsimp only
  rw [if_neg (by omega), if_neg (by omega), if_pos hx, if_neg hrem]

/-- Shape of `__update_least_common_seqs` when the last cohort member
leaves: the fallback rescan result replaces count and cohort. -/
theorem ulcs_gt_mem_rescan (st : Store) (x : String) (n m : Nat) (mc : Option Nat)
    (ms : List String)
    (h : st.analytics_least_common_seq_count = some m) (hgt : m < n)
    (hx : x ∈ st.analytics_least_common_seqs)
    (hrem : (st.analytics_least_common_seqs.erase x).card = 0)
    (hflc : find_least_common_seqs
      { st with
        analytics_least_common_seqs := st.analytics_least_common_seqs.erase x,
        analytics_least_common_seq_count := some m } =
      (mc, ms))
    (hms : ms ≠ []) :
    update_least_common_seqs st x n =
      { st with
        analytics_least_common_seqs := ms.toFinset,
        analytics_least_common_seq_count := mc } := by
  unfold update_least_common_seqs
  rw [h]
  dsimp only
  rw [if_neg (by omega), if_neg (by omega), if_pos hx, if_pos hrem, hflc]
  dsimp only
  rw [if_pos hms]


/-- Projection helpers for stores with replaced least-tracker fields. -/
theorem set_least2_gsc (st : Store) (A : Finset String) (B : Option Nat) :
    ({ st with
      analytics_least_common_seqs := A,
      analytics_least_common_seq_count := B } : Store).global_seq_count =
    st.global_seq_count := rfl

theorem set_least2_seqs (st : Store) (A : Finset String) (B : Option Nat) :
    ({ st with
      analytics_least_common_seqs := A,
      analytics_least_common_seq_count := B } : Store).analytics_least_common_seqs = A := rfl

theorem set_least2_count (st : Store) (A : Finset String) (B : Option Nat) :
    ({ st with
      analytics_least_common_seqs := A,
      analytics_least_common_seq_count := B } : Store).analytics_least_common_seq_count =
    B := rfl

theorem set_least1_gsc (st : Store) (A : Finset String) :
    ({ st with analytics_least_common_seqs := A } : Store).global_seq_count =
    st.global_seq_count := rfl

theorem set_least1_seqs (st : Store) (A : Finset String) :
    ({ st with analytics_least_common_seqs := A } : Store).analytics_least_common_seqs =
    A := rfl

theorem set_least1_count (st : Store) (A : Finset String) :
    ({ st with analytics_least_common_seqs := A } : Store).analytics_least_common_seq_count =
    st.analytics_least_common_seq_count := rfl

/-- The least-common tracker records some minimum `m`: every counter is at
least `m`, some counter equals `m`, and the cohort set is exactly the keys
whose counter equals `m`. -/
def least_tracker_min (st : Store) : Prop :=
  ∃ m, st.analytics_least_common_seq_count = some m ∧
    (∀ kv ∈ st.global_seq_count, m ≤ kv.2) ∧
    (∃ kv ∈ st.global_seq_count, kv.2 = m) ∧
    (∀ s, s ∈ st.analytics_least_common_seqs ↔ assocGet st.global_seq_count s = some m)

/-- Full invariant of the sequence-counter subsystem: well-formed counter
table, and the tracker is either untouched on an empty table or records the
true minimum. -/
def least_tracker_ok (st : Store) : Prop :=
  (st.global_seq_count.map Prod.fst).Nodup ∧
  (∀ kv ∈ st.global_seq_count, 1 ≤ kv.2) ∧
  ((st.global_seq_count = [] ∧ st.analytics_least_common_seq_count = none ∧
      st.analytics_least_common_seqs = ∅) ∨ least_tracker_min st)

/-- One serial observation (counter increment plus both tracker updates,
the loop body of `__update_common_seqs`) preserves the invariant, and
afterwards the tracker always records the true minimum. -/
theorem update_common_seqs_step_preserves (st : Store) (x : String)
    (h : least_tracker_ok st) :
    least_tracker_ok (update_common_seqs_step st x) ∧
    least_tracker_min (update_common_seqs_step st x) := by
  obtain ⟨hnd, hpos, hdisj⟩ := h
  have hstep : update_common_seqs_step st x =
      update_least_common_seqs
        (update_most_common_seqs
          { st with global_seq_count := assocIncr st.global_seq_count x } x
          ((assocGet st.global_seq_count x).getD 0 + 1)) x
        ((assocGet st.global_seq_count x).getD 0 + 1) := rfl
  set n := (assocGet st.global_seq_count x).getD 0 + 1 with hn
  set st2 := update_most_common_seqs
    { st with global_seq_count := assocIncr st.global_seq_count x } x n with hst2
  have e1 : st2.global_seq_count = assocIncr st.global_seq_count x := by
    rw [hst2, update_most_common_seqs_seq_count]
  have e2 : st2.analytics_least_common_seqs = st.analytics_least_common_seqs := by
    rw [hst2, update_most_common_seqs_least_seqs]
  have e3 : st2.analytics_least_common_seq_count = st.analytics_least_common_seq_count := by
    rw [hst2, update_most_common_seqs_least_count]
  have hnd' : ((assocIncr st.global_seq_count x).map Prod.fst).Nodup :=
    assocIncr_keys_nodup _ _ hnd
  have hpos' : ∀ kv ∈ assocIncr st.global_seq_count x, 1 ≤ kv.2 := assocIncr_pos _ _ hpos
  have getx' : assocGet (assocIncr st.global_seq_count x) x = some n :=
    assocGet_assocIncr_self _ _
  have gets' : ∀ s, s ≠ x →
      assocGet (assocIncr st.global_seq_count x) s = assocGet st.global_seq_count s :=
    fun s hs => assocGet_assocIncr_other _ _ _ hs
  have hsplit : ∀ kv : String × Nat, kv ∈ assocIncr st.global_seq_count x →
      (kv.1 = x ∧ kv.2 = n) ∨ (kv.1 ≠ x ∧ kv ∈ st.global_seq_count) := by
    intro kv hkv
    by_cases hk : kv.1 = x
    · left
      refine ⟨hk, ?_⟩
      have hg := (assoc_mem_get _ hnd' kv.1 kv.2).mp hkv
      rw [hk, getx'] at hg
      exact (Option.some.injEq _ _ ▸ hg).symm
    · right
      have hg := (assoc_mem_get _ hnd' kv.1 kv.2).mp hkv
      rw [gets' kv.1 hk] at hg
      exact ⟨hk, assocGet_eq_some_mem _ _ _ hg⟩
  rw [hstep]
  rcases hdisj with ⟨hc0, hl0, hs0⟩ | ⟨m, hm, hmin, hach, hmem⟩
  · -- fresh database: the very first observation
    have hl2 : st2.analytics_least_common_seq_count = none := by rw [e3, hl0]
    rw [ulcs_none st2 x n hl2]
    have hcounts : assocIncr st.global_seq_count x = [(x, 1)] := by
      rw [hc0]
      rfl
    have hn1 : n = 1 := by
      rw [hn, hc0]
      rfl
    have hmin2 : least_tracker_min
        { st2 with
          analytics_least_common_seqs := {x},
          analytics_least_common_seq_count := some n } := by
      refine ⟨n, rfl, ?_, ?_, ?_⟩
      · intro kv hkv
        rw [show ({ st2 with
            analytics_least_common_seqs := ({x} : Finset String),
            analytics_least_common_seq_count := some n } : Store).global_seq_count =
          st2.global_seq_count from rfl, e1, hcounts] at hkv
        simp only [List.mem_singleton] at hkv
        rw [hkv, hn1]
      · refine ⟨(x, 1), ?_, hn1.symm⟩
        rw [show ({ st2 with
            analytics_least_common_seqs := ({x} : Finset String),
            analytics_least_common_seq_count := some n } : Store).global_seq_count =
          st2.global_seq_count from rfl, e1, hcounts]
        simp
      · intro s
        rw [show ({ st2 with
            analytics_least_common_seqs := ({x} : Finset String),
            analytics_least_common_seq_count := some n } : Store).global_seq_count =
          st2.global_seq_count from rfl, e1, hcounts]
        constructor
        · intro hs
          simp only [Finset.mem_singleton] at hs
          rw [hs, hn1]
          simp [assocGet, List.find?]
        · intro hs
          by_cases hsx : s = x
          · simp [hsx]
          · exfalso
            unfold assocGet at hs
            rw [List.find?_cons_of_neg _ (by simpa using (fun hc => hsx hc.symm))] at hs
            simp [List.find?] at hs
    refine ⟨⟨?_, ?_, Or.inr hmin2⟩, hmin2⟩
    · rw [show ({ st2 with
        analytics_least_common_seqs := ({x} : Finset String),
        analytics_least_common_seq_count := some n } : Store).global_seq_count =
        st2.global_seq_count from rfl, e1]
      exact hnd'
    · rw [show ({ st2 with
        analytics_least_common_seqs := ({x} : Finset String),
        analytics_least_common_seq_count := some n } : Store).global_seq_count =
        st2.global_seq_count from rfl, e1]
      exact hpos'
  · -- the tracker already records a minimum m
    have hm1 : 1 ≤ m := by
      obtain ⟨kv, hkv, he⟩ := hach
      have := hpos kv hkv
      omega
    have hl2 : st2.analytics_least_common_seq_count = some m := by rw [e3, hm]
    rcases hget : assocGet st.global_seq_count x with _ | c
    · -- x observed for the first time, so n = 1 ≤ m
      have hn1 : n = 1 := by rw [hn, hget]; rfl
      rcases Nat.lt_or_ge n m with hlt | hge
      · -- n is a strictly new minimum: replace the cohort with just x
        rw [ulcs_lt st2 x n m hl2 hlt]
        have hres : least_tracker_min
            { st2 with
              analytics_least_common_seqs := {x},
              analytics_least_common_seq_count := some n } := by
          refine ⟨n, by rw [set_least2_count], ?_, ?_, ?_⟩
          · intro kv hkv
            rw [set_least2_gsc, e1] at hkv
            have := hpos' kv hkv
            omega
          · refine ⟨(x, n), ?_, rfl⟩
            rw [set_least2_gsc, e1]
            exact assocGet_eq_some_mem _ _ _ getx'
          · intro s
            rw [set_least2_gsc, set_least2_seqs, e1]
            constructor
            · intro hs
              simp only [Finset.mem_singleton] at hs
              rw [hs]
              exact getx'
            · intro hs
              by_cases hsx : s = x
              · simp [hsx]
              · exfalso
                rw [gets' s hsx] at hs
                have hmem2 := assocGet_eq_some_mem _ _ _ hs
                have := hmin _ hmem2
                simp at this
                omega
        refine ⟨⟨?_, ?_, Or.inr hres⟩, hres⟩
        · rw [set_least2_gsc, e1]
          exact hnd'
        · rw [set_least2_gsc, e1]
          exact hpos'
      · -- n equals the minimum (n = 1 = m): x joins the cohort
        have heqnm : n = m := by omega
        rw [ulcs_eq st2 x n m hl2 heqnm]
        have hres : least_tracker_min
            { st2 with
              analytics_least_common_seqs := insert x st2.analytics_least_common_seqs } := by
          refine ⟨m, by rw [set_least1_count, hl2], ?_, ?_, ?_⟩
          · intro kv hkv
            rw [set_least1_gsc, e1] at hkv
            rcases hsplit kv hkv with ⟨-, hv⟩ | ⟨-, hv⟩
            · omega
            · exact hmin kv hv
          · refine ⟨(x, n), ?_, heqnm⟩
            rw [set_least1_gsc, e1]
            exact assocGet_eq_some_mem _ _ _ getx'
          · intro s
            rw [set_least1_gsc, set_least1_seqs, e1, Finset.mem_insert, e2]
            constructor
            · rintro (hs | hs)
              · rw [hs, getx', heqnm]
              · have := (hmem s).mp hs
                by_cases hsx : s = x
                · rw [hsx, getx', heqnm]
                · rw [gets' s hsx]
                  exact this
            · intro hs
              by_cases hsx : s = x
              · exact Or.inl hsx
              · right
                rw [gets' s hsx] at hs
                exact (hmem s).mpr hs
        refine ⟨⟨?_, ?_, Or.inr hres⟩, hres⟩
        · rw [set_least1_gsc, e1]
          exact hnd'
        · rw [set_least1_gsc, e1]
          exact hpos'
    · -- x already counted: old count c, n = c + 1 > m
      have hnc : n = c + 1 := by rw [hn, hget]; rfl
      have hcm : m ≤ c := by
        have := hmin _ (assocGet_eq_some_mem _ _ _ hget)
        simpa using this
      have hgt : m < n := by omega
      by_cases hxin : x ∈ st.analytics_least_common_seqs
      · -- x was in the cohort: its old count was exactly m
        have hcem : c = m := by
          have h2 := (hmem x).mp hxin
          rw [hget] at h2
          exact Option.some.inj h2
        by_cases hcard : (st2.analytics_least_common_seqs.erase x).card = 0
        · -- the cohort empties: fallback full rescan
          obtain ⟨m', hm', hmin', hach', hmem'⟩ := find_least_correct st2
            (by rw [e1]; exact hpos') (by rw [e1]; exact assocIncr_ne_nil _ _)
          rcases hpair : find_least_common_seqs st2 with ⟨mc, ms⟩
          rw [hpair] at hm' hmem'
          have hmc : mc = some m' := hm'
          have hmsne : ms ≠ [] := by
            obtain ⟨kv, hkv, he⟩ := hach'
            have hin : kv.1 ∈ ms := (hmem' kv.1).mpr (by rw [← he]; exact hkv)
            intro hcon
            rw [hcon] at hin
            simp at hin
          have hflc : find_least_common_seqs
              { st2 with
                analytics_least_common_seqs := st2.analytics_least_common_seqs.erase x,
                analytics_least_common_seq_count := some m } =
              (mc, ms) := hpair
          rw [ulcs_gt_mem_rescan st2 x n m mc ms hl2 hgt (by rw [e2]; exact hxin)
            hcard hflc hmsne]
          have hres : least_tracker_min
              { st2 with
                analytics_least_common_seqs := ms.toFinset,
                analytics_least_common_seq_count := mc } := by
            refine ⟨m', by rw [set_least2_count, hmc], ?_, ?_, ?_⟩
            · intro kv hkv
              rw [set_least2_gsc] at hkv
              exact hmin' kv hkv
            · obtain ⟨kv, hkv, he⟩ := hach'
              refine ⟨kv, ?_, he⟩
              rw [set_least2_gsc]
              exact hkv
            · intro s
              rw [set_least2_gsc, set_least2_seqs, List.mem_toFinset, hmem' s, e1]
              exact assoc_mem_get _ hnd' s m'
          refine ⟨⟨?_, ?_, Or.inr hres⟩, hres⟩
          · rw [set_least2_gsc, e1]
            exact hnd'
          · rw [set_least2_gsc, e1]
            exact hpos'
        · -- others remain tied at m: just drop x from the cohort
          rw [ulcs_gt_mem_rem st2 x n m hl2 hgt (by rw [e2]; exact hxin) hcard]
          have hres : least_tracker_min
              { st2 with
                analytics_least_common_seqs := st2.analytics_least_common_seqs.erase x } := by
            refine ⟨m, by rw [set_least1_count, hl2], ?_, ?_, ?_⟩
            · intro kv hkv
              rw [set_least1_gsc, e1] at hkv
              rcases hsplit kv hkv with ⟨-, hv⟩ | ⟨-, hv⟩
              · omega
              · exact hmin kv hv
            · obtain ⟨s', hs'⟩ := Finset.card_ne_zero.mp hcard
              rw [e2] at hs'
              have hs'x : s' ≠ x := (Finset.mem_erase.mp hs').1
              have hs'in : s' ∈ st.analytics_least_common_seqs := (Finset.mem_erase.mp hs').2
              have hs'get := (hmem s').mp hs'in
              refine ⟨(s', m), ?_, rfl⟩
              rw [set_least1_gsc, e1]
              exact assocGet_eq_some_mem _ _ _ (by rw [gets' s' hs'x]; exact hs'get)
            · intro s
              rw [set_least1_gsc, set_least1_seqs, e1, Finset.mem_erase, e2]
              constructor
              · rintro ⟨hsx, hs⟩
                rw [gets' s hsx]
                exact (hmem s).mp hs
              · intro hs
                by_cases hsx : s = x
                · exfalso
                  rw [hsx, getx'] at hs
                  have hnm2 : n = m := Option.some.inj hs
                  omega
                · rw [gets' s hsx] at hs
                  exact ⟨hsx, (hmem s).mpr hs⟩
          refine ⟨⟨?_, ?_, Or.inr hres⟩, hres⟩
          · rw [set_least1_gsc, e1]
            exact hnd'
          · rw [set_least1_gsc, e1]
            exact hpos'
      · -- x was not in the cohort: the tracker state is untouched
        rw [ulcs_gt_notmem st2 x n m hl2 hgt (by rw [e2]; exact hxin)]
        have hres : least_tracker_min st2 := by
          refine ⟨m, hl2, ?_, ?_, ?_⟩
          · intro kv hkv
            rw [e1] at hkv
            rcases hsplit kv hkv with ⟨-, hv⟩ | ⟨-, hv⟩
            · omega
            · exact hmin kv hv
          · obtain ⟨kv, hkv, he⟩ := hach
            have hkx : kv.1 ≠ x := by
              intro hc
              have h2 := (assoc_mem_get _ hnd kv.1 kv.2).mp hkv
              rw [hc, hget] at h2
              have hce : c = kv.2 := Option.some.inj h2
              have hcn : kv.2 ≠ m := by
                intro hcon
                exact hxin ((hmem x).mpr (by rw [hget, hce, hcon]))
              exact hcn he
            refine ⟨(kv.1, kv.2), ?_, he⟩
            rw [e1]
            have h2 := (assoc_mem_get _ hnd kv.1 kv.2).mp hkv
            exact assocGet_eq_some_mem _ _ _ (by rw [gets' kv.1 hkx]; exact h2)
          · intro s
            rw [e1, e2]
            constructor
            · intro hs
              have hsx : s ≠ x := fun hc => hxin (hc ▸ hs)
              rw [gets' s hsx]
              exact (hmem s).mp hs
            · intro hs
              by_cases hsx : s = x
              · exfalso
                rw [hsx, getx'] at hs
                have hnm2 : n = m := Option.some.inj hs
                omega
              · rw [gets' s hsx] at hs
                exact (hmem s).mpr hs
        refine ⟨⟨?_, ?_, Or.inr hres⟩, hres⟩
        · rw [e1]
          exact hnd'
        · rw [e1]
          exact hpos'


/-- The invariant holds along any serial observation sequence. -/
theorem foldl_step_ok (seqs : List String) (st : Store) (h : least_tracker_ok st) :
    least_tracker_ok (seqs.foldl update_common_seqs_step st) := by
  induction seqs generalizing st with
  | nil => exact h
  | cons a l ih => exact ih _ (update_common_seqs_step_preserves st a h).1

/-- After at least one observation the tracker records the true minimum. -/
theorem foldl_step_min (l : List String) (st : Store) (h : least_tracker_ok st)
    (hmin : least_tracker_min st) :
    least_tracker_min (l.foldl update_common_seqs_step st) := by
  induction l generalizing st with
  | nil => exact hmin
  | cons a l ih =>
    exact ih _ (update_common_seqs_step_preserves st a h).1
      (update_common_seqs_step_preserves st a h).2

/-- The empty store satisfies the tracker invariant. -/
theorem empty_least_tracker_ok : least_tracker_ok emptyStore :=
  ⟨by simp [emptyStore], by simp [emptyStore], Or.inl ⟨rfl, rfl, rfl⟩⟩

/-- C2: after every serial sequence of three-move-sequence observations
(each incrementing its counter and feeding the new count to the trackers),
the least-common set is exactly the set of sequences whose current count
equals the recorded least count, that count is the true global minimum over
all observed sequences, and the set is never left empty - the emptying of
the cohort triggers the fallback full rescan, whose result restores the
true minimum and its full tied cohort (`find_least_correct`). -/
theorem C2_least_common_seqs_invariant (seqs : List String) (hne : seqs ≠ []) :
    ∃ m,
      (seqs.foldl update_common_seqs_step emptyStore).analytics_least_common_seq_count =
        some m ∧
      (∀ s, s ∈ (seqs.foldl update_common_seqs_step
          emptyStore).analytics_least_common_seqs ↔
        assocGet (seqs.foldl update_common_seqs_step emptyStore).global_seq_count s =
          some m) ∧
      (∀ kv ∈ (seqs.foldl update_common_seqs_step emptyStore).global_seq_count,
        m ≤ kv.2) ∧
      (∃ kv ∈ (seqs.foldl update_common_seqs_step emptyStore).global_seq_count,
        kv.2 = m) ∧
      (seqs.foldl update_common_seqs_step emptyStore).analytics_least_common_seqs.Nonempty := by
  obtain ⟨a, l, rfl⟩ := List.exists_cons_of_ne_nil hne
  rw [List.foldl_cons]
  have h1 := update_common_seqs_step_preserves emptyStore a empty_least_tracker_ok
  have hok := foldl_step_ok l _ h1.1
  have hminf := foldl_step_min l _ h1.1 h1.2
  obtain ⟨m, hc, hmi, hac, hme⟩ := hminf
  refine ⟨m, hc, hme, hmi, hac, ?_⟩
  obtain ⟨kv, hkv, he⟩ := hac
  refine ⟨kv.1, (hme kv.1).mpr ?_⟩
  have h2 := (assoc_mem_get _ hok.1 kv.1 kv.2).mp hkv
  rw [he] at h2
  exact h2

/-- Witness for C2: the Scenario-E shaped run X, Y, X, Y empties the
cohort on the last observation and the rescan restores minimum 2. -/
theorem C2_witness :
    ∃ m,
      ((["X", "Y", "X", "Y"] : List String).foldl update_common_seqs_step
          emptyStore).analytics_least_common_seq_count = some m ∧
      (∀ s, s ∈ ((["X", "Y", "X", "Y"] : List String).foldl update_common_seqs_step
          emptyStore).analytics_least_common_seqs ↔
        assocGet ((["X", "Y", "X", "Y"] : List String).foldl update_common_seqs_step
          emptyStore).global_seq_count s = some m) ∧
      (∀ kv ∈ ((["X", "Y", "X", "Y"] : List String).foldl update_common_seqs_step
          emptyStore).global_seq_count, m ≤ kv.2) ∧
      (∃ kv ∈ ((["X", "Y", "X", "Y"] : List String).foldl update_common_seqs_step
          emptyStore).global_seq_count, kv.2 = m) ∧
      ((["X", "Y", "X", "Y"] : List String).foldl update_common_seqs_step
          emptyStore).analytics_least_common_seqs.Nonempty :=
  C2_least_common_seqs_invariant ["X", "Y", "X", "Y"] (by decide)

/-! ### Claim C1: the bounded leaderboard -/

/-- In a non-increasing list, everything after the first entry of score
≤ `n` has score ≤ `n`. -/
theorem dropWhile_le (l : List (String × Nat)) (n : Nat)
    (hs : l.Pairwise (fun a b => b.2 ≤ a.2)) :
    ∀ b ∈ l.dropWhile (fun e => n < e.2), b.2 ≤ n := by
  intro b hb
  have hds : (l.dropWhile (fun e => n < e.2)).Pairwise (fun a b => b.2 ≤ a.2) :=
    List.Pairwise.sublist (List.dropWhile_sublist _) hs
  rcases hd : l.dropWhile (fun e => n < e.2) with _ | ⟨b0, rest⟩
  · rw [hd] at hb
    simp at hb
  · rw [hd] at hb hds
    have hb0 : ¬(n < b0.2) := by
      have h := List.head?_dropWhile_not (fun e => n < e.2) l
      rw [hd] at h
      simpa using h
    rcases List.mem_cons.mp hb with he | hm
    · rw [he]
      omega
    · have := (List.pairwise_cons.mp hds).1 b hm
      omega

/-- Inserting before the first entry of score ≤ `n` keeps the list
non-increasing. -/
theorem insert_sorted (l : List (String × Nat)) (x : String) (n : Nat)
    (hs : l.Pairwise (fun a b => b.2 ≤ a.2)) :
    (l.takeWhile (fun e => n < e.2) ++ (x, n) :: l.dropWhile (fun e => n < e.2)).Pairwise
      (fun a b => b.2 ≤ a.2) := by
  rw [List.pairwise_append]
  refine ⟨List.Pairwise.sublist (List.takeWhile_sublist _) hs, ?_, ?_⟩
  · rw [List.pairwise_cons]
    exact ⟨fun b hb => dropWhile_le l n hs b hb,
      List.Pairwise.sublist (List.dropWhile_sublist _) hs⟩
  · intro a ha c hc
    have han : n < a.2 := by simpa using List.mem_takeWhile_imp ha
    rcases List.mem_cons.mp hc with he | hm
    · rw [he]
      exact Nat.le_of_lt han
    · have := dropWhile_le l n hs c hm
      omega

/-- Entries after the insertion are the new entry or old entries. -/
theorem mem_insert_split (l : List (String × Nat)) (x : String) (n : Nat)
    (e : String × Nat)
    (he : e ∈ l.takeWhile (fun e => n < e.2) ++ (x, n) :: l.dropWhile (fun e => n < e.2)) :
    e = (x, n) ∨ e ∈ l := by
  rcases List.mem_append.mp he with h | h
  · exact Or.inr ((List.takeWhile_sublist _).mem h)
  · rcases List.mem_cons.mp h with h2 | h2
    · exact Or.inl h2
    · exact Or.inr ((List.dropWhile_sublist _).mem h2)

/-- The insertion of a fresh entity keeps entity ids distinct. -/
theorem insert_fst_nodup (l : List (String × Nat)) (x : String) (n : Nat)
    (hnd : (l.map Prod.fst).Nodup) (hx : x ∉ l.map Prod.fst) :
    (((l.takeWhile (fun e => n < e.2) ++
      (x, n) :: l.dropWhile (fun e => n < e.2))).map Prod.fst).Nodup := by
  rw [List.map_append, List.map_cons, List.nodup_middle, ← List.map_append,
    List.takeWhile_append_dropWhile]
  exact List.nodup_cons.mpr ⟨hx, hnd⟩


/-- Invariant of the win leaderboard under serial unit-increment updates:
the list is non-increasing by score, capped at ten, has pairwise distinct
entities whose entries carry their current scores, and any updated entity
missing from the list is weakly dominated by ten other updated entities. -/
def top_inv (pids : List String) (scores : String → Nat) (top : List (String × Nat)) : Prop :=
  top.Pairwise (fun a b => b.2 ≤ a.2) ∧
  top.length ≤ 10 ∧
  (top.map Prod.fst).Nodup ∧
  (∀ e ∈ top, e.2 = scores e.1 ∧ 1 ≤ e.2 ∧ e.1 ∈ pids) ∧
  (∀ p ∈ pids, p ∉ top.map Prod.fst →
    ∃ S : Finset String, S.card = 10 ∧ p ∉ S ∧ ∀ q ∈ S, q ∈ pids ∧ scores p ≤ scores q)

/-- One win (counter increment plus `__update_top_list`) preserves the
leaderboard invariant. -/
theorem top_inv_step (pids : List String) (scores : String → Nat)
    (top : List (String × Nat)) (X : String)
    (hinv : top_inv pids scores top) :
    top_inv (pids ++ [X]) (fupd scores X (scores X + 1))
      (update_top_list top X (scores X + 1)) := by
  obtain ⟨hsort, hlen, hnd, hcur, hcomp⟩ := hinv
  have hl1X : ∀ e ∈ top.filter (fun e => e ≠ (X, scores X + 1 - 1)), e.1 ≠ X := by
    intro e he hcon
    rw [List.mem_filter] at he
    have h4 := hcur e he.1
    have heq : e = (X, scores X + 1 - 1) := by
      rcases e with ⟨a, b⟩
      simp only at hcon
      subst hcon
      have : b = scores a := h4.1
      subst this
      simp
    rw [heq] at he
    simp at he
  set l1 := top.filter (fun e => e ≠ (X, scores X + 1 - 1)) with hl1def
  have hsub1 : l1.Sublist top := List.filter_sublist top
  have hl1sort : l1.Pairwise (fun a b => b.2 ≤ a.2) := List.Pairwise.sublist hsub1 hsort
  have hl1nd : (l1.map Prod.fst).Nodup := (hsub1.map Prod.fst).nodup hnd
  have hXnot : X ∉ l1.map Prod.fst := by
    intro hc
    obtain ⟨e, he, hefst⟩ := List.mem_map.mp hc
    exact hl1X e he hefst
  set l2 := l1.takeWhile (fun e => scores X + 1 < e.2) ++
    (X, scores X + 1) :: l1.dropWhile (fun e => scores X + 1 < e.2) with hl2def
  have htop' : update_top_list top X (scores X + 1) = l2.take 10 := by
    rw [update_top_list_eq]
  have hl2sort : l2.Pairwise (fun a b => b.2 ≤ a.2) := insert_sorted l1 X _ hl1sort
  have hl2nd : (l2.map Prod.fst).Nodup := insert_fst_nodup l1 X _ hl1nd hXnot
  have hl2cur : ∀ e ∈ l2, e.2 = fupd scores X (scores X + 1) e.1 ∧ 1 ≤ e.2 ∧
      e.1 ∈ pids ++ [X] := by
    intro e he
    rcases mem_insert_split l1 X _ e he with heq | hmem
    · rw [heq]
      refine ⟨?_, by omega, by simp⟩
      show scores X + 1 = fupd scores X (scores X + 1) X
      rw [fupd_same]
    · have h4 := hcur e (hsub1.mem hmem)
      have hne := hl1X e hmem
      exact ⟨by rw [fupd_other _ _ _ _ hne]; exact h4.1, h4.2.1,
        List.mem_append_left _ h4.2.2⟩
  have hl1mem_l2 : ∀ e ∈ l1, e ∈ l2 := by
    intro e he
    rw [← List.takeWhile_append_dropWhile (fun e => scores X + 1 < e.2) l1] at he
    rcases List.mem_append.mp he with h | h
    · exact List.mem_append_left _ h
    · exact List.mem_append_right _ (List.mem_cons_of_mem _ h)
  refine ⟨?_, ?_, ?_, ?_, ?_⟩
  · rw [htop']
    exact List.Pairwise.sublist (List.take_sublist _ _) hl2sort
  · rw [htop', List.length_take]
    exact Nat.min_le_left _ _
  · rw [htop', List.map_take]
    exact (List.take_sublist _ _).nodup hl2nd
  · intro e he
    rw [htop'] at he
    exact hl2cur e (List.take_subset _ _ he)
  · intro p hp hpnot
    rw [htop'] at hpnot
    by_cases hpin : p ∈ l2.map Prod.fst
    · obtain ⟨e, hel2, hefst⟩ := List.mem_map.mp hpin
      have hetake : e ∉ l2.take 10 := by
        intro hc
        exact hpnot (List.mem_map.mpr ⟨e, hc, hefst⟩)
      have hedrop : e ∈ l2.drop 10 := by
        have h2 := hel2
        rw [← List.take_append_drop 10 l2] at h2
        rcases List.mem_append.mp h2 with h | h
        · exact absurd h hetake
        · exact h
      have hlen2 : 10 < l2.length := by
        by_contra hc
        push_neg at hc
        rw [List.drop_eq_nil_iff.mpr hc] at hedrop
        simp at hedrop
      have htknd : ((l2.take 10).map Prod.fst).Nodup := by
        rw [List.map_take]
        exact (List.take_sublist _ _).nodup hl2nd
      refine ⟨((l2.take 10).map Prod.fst).toFinset, ?_, ?_, ?_⟩
      · rw [List.toFinset_card_of_nodup htknd, List.length_map, List.length_take]
        exact Nat.min_eq_left (Nat.le_of_lt hlen2)
      · intro hc
        rw [List.mem_toFinset] at hc
        exact hpnot hc
      · intro q hq
        rw [List.mem_toFinset] at hq
        obtain ⟨f, hf, hffst⟩ := List.mem_map.mp hq
        have hfl2 := List.take_subset _ _ hf
        have hfc := hl2cur f hfl2
        have hec := hl2cur e hel2
        have hcross := (List.pairwise_append.mp
          (by rw [List.take_append_drop]; exact hl2sort)).2.2 f hf e hedrop
        refine ⟨by rw [← hffst]; exact hfc.2.2, ?_⟩
        have h1 : fupd scores X (scores X + 1) p = e.2 := by rw [← hefst, hec.1]
        have h2 : fupd scores X (scores X + 1) q = f.2 := by rw [← hffst, hfc.1]
        omega
    · have hpX : p ≠ X := by
        intro hc
        exact hpin (List.mem_map.mpr ⟨(X, scores X + 1),
          List.mem_append_right _ (List.mem_cons_self _ _), hc.symm⟩)
      have hppids : p ∈ pids := by
        rcases List.mem_append.mp hp with h | h
        · exact h
        · simp at h
          exact absurd h hpX
      have hptop : p ∉ top.map Prod.fst := by
        intro hc
        obtain ⟨e, he, hefst⟩ := List.mem_map.mp hc
        have hel1 : e ∈ l1 := by
          rw [hl1def, List.mem_filter]
          refine ⟨he, ?_⟩
          simp only [decide_eq_true_eq]
          intro hcon
          rw [hcon] at hefst
          exact hpX hefst.symm
        exact hpin (List.mem_map.mpr ⟨e, hl1mem_l2 e hel1, hefst⟩)
      obtain ⟨S, hS10, hpS, hSq⟩ := hcomp p hppids hptop
      refine ⟨S, hS10, hpS, ?_⟩
      intro q hq
      obtain ⟨hqpids, hqle⟩ := hSq q hq
      refine ⟨List.mem_append_left _ hqpids, ?_⟩
      rw [fupd_other _ _ _ _ hpX]
      by_cases hqX : q = X
      · rw [hqX, fupd_same]
        rw [hqX] at hqle
        omega
      · rw [fupd_other _ _ _ _ hqX]
        exact hqle


/-- The leaderboard invariant holds after any serial sequence of wins. -/
theorem run_top_wins_inv (pids : List String) :
    top_inv pids (run_top_wins pids).1 (run_top_wins pids).2 := by
  induction pids using List.reverseRecOn with
  | nil =>
    refine ⟨List.Pairwise.nil, by simp [run_top_wins], by simp [run_top_wins], ?_, ?_⟩
    · intro e he
      simp [run_top_wins] at he
    · intro p hp
      simp at hp
  | append_singleton l X ih =>
    have hrun : run_top_wins (l ++ [X]) =
        ((fupd (run_top_wins l).1 X ((run_top_wins l).1 X + 1)),
          update_top_list (run_top_wins l).2 X ((run_top_wins l).1 X + 1)) := by
      unfold run_top_wins
      rw [List.foldl_append]
      rfl
    rw [hrun]
    exact top_inv_step l (run_top_wins l).1 (run_top_wins l).2 X ih

/-- C1 (amended): for every sequence of leaderboard updates made right
after a unit counter increment, the resulting list is sorted non-increasing
by score, has length at most the capacity 10, never retains a stale entry
(each listed entity appears once, with its current score), and every entity
for which fewer than ten other updated entities have a score greater than
or equal to its own appears exactly once. Entities tied at the tenth place
may be evicted in favour of later-admitted entities of equal score, so
membership at the boundary is not guaranteed. -/
theorem C1_leaderboard_invariant (pids : List String) :
    (run_top_wins pids).2.Pairwise (fun a b => b.2 ≤ a.2) ∧
    (run_top_wins pids).2.length ≤ 10 ∧
    ((run_top_wins pids).2.map Prod.fst).Nodup ∧
    (∀ e ∈ (run_top_wins pids).2, e.2 = (run_top_wins pids).1 e.1) ∧
    (∀ p ∈ pids,
      (pids.toFinset.filter
        (fun q => q ≠ p ∧ (run_top_wins pids).1 p ≤ (run_top_wins pids).1 q)).card < 10 →
      ((run_top_wins pids).2.map Prod.fst).count p = 1) := by
  obtain ⟨hsort, hlen, hnd, hcur, hcomp⟩ := run_top_wins_inv pids
  refine ⟨hsort, hlen, hnd, fun e he => (hcur e he).1, ?_⟩
  intro p hp hcard
  by_cases hmem : p ∈ (run_top_wins pids).2.map Prod.fst
  · have hle := List.nodup_iff_count_le_one.mp hnd p
    have hpos := List.count_pos_iff.mpr hmem
    omega
  · exfalso
    obtain ⟨S, hS10, hpS, hSq⟩ := hcomp p hp hmem
    have hsub : S ⊆ pids.toFinset.filter
        (fun q => q ≠ p ∧ (run_top_wins pids).1 p ≤ (run_top_wins pids).1 q) := by
      intro q hq
      obtain ⟨hqpids, hqle⟩ := hSq q hq
      rw [Finset.mem_filter, List.mem_toFinset]
      exact ⟨hqpids, fun hc => hpS (hc ▸ hq), hqle⟩
    have := Finset.card_le_card hsub
    omega

/-- Nine players reach score 2, then Y reaches 1, then X reaches 1: X's
insertion before the tied tail evicts Y. -/
def evictionRun : List String :=
  ["p1", "p1", "p2", "p2", "p3", "p3", "p4", "p4", "p5", "p5",
   "p6", "p6", "p7", "p7", "p8", "p8", "p9", "p9", "Y", "X"]
/-- Counterexample to C1 as stated: Y's score 1 is one of the ten highest
current scores (only nine entities score strictly higher and the list holds
ten entries), yet Y is absent while the equally scored, later-updated X is
present - the list does not contain every entity whose score is in the true
top ten. -/
theorem C1_counterexample :
    (run_top_wins evictionRun).1 "Y" = 1 ∧
    (evictionRun.toFinset.filter (fun q => 1 < (run_top_wins evictionRun).1 q)).card = 9 ∧
    (run_top_wins evictionRun).2.length = 10 ∧
    "Y" ∉ (run_top_wins evictionRun).2.map Prod.fst ∧
    "X" ∈ (run_top_wins evictionRun).2.map Prod.fst ∧
    (run_top_wins evictionRun).1 "X" = 1 := by decide

/-- Witness for C1 (amended) on the eviction run: p1 dominates the bound
and indeed appears exactly once. -/
theorem C1_witness :
    "Y" ∈ evictionRun ∧
    ((evictionRun.toFinset.filter
      (fun q => q ≠ "p1" ∧ (run_top_wins evictionRun).1 "p1" ≤
        (run_top_wins evictionRun).1 q)).card < 10) ∧
    (((run_top_wins evictionRun).2.map Prod.fst).count "p1" = 1) :=
  ⟨by decide, by decide,
    (C1_leaderboard_invariant evictionRun).2.2.2.2 "p1" (by decide) (by decide)⟩

end BoardGameClub

/-! C4: friend-group clustering (`__update_friend_groups`). -/
namespace BoardGameClub

/-- A serial run of `__update_friend_groups` over a list of game links
(white player, black player), starting from the empty store. -/
def run_friend_groups (ls : List (String × String)) : Store :=
  ls.foldl (fun st l => update_friend_groups st l.1 l.2) emptyStore

/-- Two players are directly linked when some recorded game pairs them,
in either role order. -/
def links_pair (ls : List (String × String)) (p q : String) : Prop :=
  ∃ l ∈ ls, (l.1 = p ∧ l.2 = q) ∨ (l.1 = q ∧ l.2 = p)

/-- A player appears in at least one recorded link. -/
def touched (ls : List (String × String)) (p : String) : Prop :=
  ∃ l ∈ ls, l.1 = p ∨ l.2 = p

/-- Both players carry the same friend-group id in their
`player:{pid}:friend_group` pointer. -/
def same_group (st : Store) (p q : String) : Prop :=
  ∃ g, st.player_friend_group p = some g ∧ st.player_friend_group q = some g

/-- A chain of recorded links connects p to q (and p actually appears in
some link, so isolated never-linked players are connected only vacuously
to themselves through no group). -/
def chain_connected (ls : List (String × String)) (p q : String) : Prop :=
  Relation.ReflTransGen (links_pair ls) p q ∧ touched ls p

theorem links_pair_append (ls : List (String × String)) (a b p q : String) :
    links_pair (ls ++ [(a, b)]) p q ↔
      links_pair ls p q ∨ (a = p ∧ b = q) ∨ (a = q ∧ b = p) := by
  constructor
  · rintro ⟨l, hl, ho⟩
    rcases List.mem_append.mp hl with h | h
    · exact Or.inl ⟨l, h, ho⟩
    · simp only [List.mem_singleton] at h
      subst h
      rcases ho with ⟨h1, h2⟩ | ⟨h1, h2⟩
      · exact Or.inr (Or.inl ⟨h1, h2⟩)
      · exact Or.inr (Or.inr ⟨h1, h2⟩)
  · rintro (⟨l, hl, ho⟩ | ⟨h1, h2⟩ | ⟨h1, h2⟩)
    · exact ⟨l, List.mem_append_left _ hl, ho⟩
    · exact ⟨(a, b), List.mem_append_right _ (List.mem_singleton_self _), Or.inl ⟨h1, h2⟩⟩
    · exact ⟨(a, b), List.mem_append_right _ (List.mem_singleton_self _), Or.inr ⟨h1, h2⟩⟩

theorem touched_append (ls : List (String × String)) (a b p : String) :
    touched (ls ++ [(a, b)]) p ↔ touched ls p ∨ a = p ∨ b = p := by
  constructor
  · rintro ⟨l, hl, ho⟩
    rcases List.mem_append.mp hl with h | h
    · exact Or.inl ⟨l, h, ho⟩
    · simp only [List.mem_singleton] at h
      subst h
      rcases ho with h | h
      · exact Or.inr (Or.inl h)
      · exact Or.inr (Or.inr h)
  · rintro (⟨l, hl, ho⟩ | h | h)
    · exact ⟨l, List.mem_append_left _ hl, ho⟩
    · exact ⟨(a, b), List.mem_append_right _ (List.mem_singleton_self _), Or.inl h⟩
    · exact ⟨(a, b), List.mem_append_right _ (List.mem_singleton_self _), Or.inr h⟩

theorem links_pair_symm (ls : List (String × String)) {p q : String}
    (h : links_pair ls p q) : links_pair ls q p := by
  obtain ⟨l, hl, ho⟩ := h
  exact ⟨l, hl, ho.symm⟩

theorem reach_symm (ls : List (String × String)) {p q : String}
    (h : Relation.ReflTransGen (links_pair ls) p q) :
    Relation.ReflTransGen (links_pair ls) q p :=
  Relation.ReflTransGen.symmetric (fun _ _ h2 => links_pair_symm ls h2) h

theorem links_pair_touched (ls : List (String × String)) {p q : String}
    (h : links_pair ls p q) : touched ls p := by
  obtain ⟨l, hl, ho⟩ := h
  rcases ho with ⟨h1, h2⟩ | ⟨h1, h2⟩
  · exact ⟨l, hl, Or.inl h1⟩
  · exact ⟨l, hl, Or.inr h2⟩

theorem untouched_reach_eq (ls : List (String × String)) {p q : String}
    (hp : ¬touched ls p) (h : Relation.ReflTransGen (links_pair ls) p q) : p = q := by
  rcases Relation.ReflTransGen.cases_head h with he | ⟨c, hc, -⟩
  · exact he
  · exact absurd (links_pair_touched ls hc) hp

theorem reaches_append (ls : List (String × String)) (a b p q : String) :
    Relation.ReflTransGen (links_pair (ls ++ [(a, b)])) p q ↔
      Relation.ReflTransGen (links_pair ls) p q ∨
      (Relation.ReflTransGen (links_pair ls) p a ∧
        Relation.ReflTransGen (links_pair ls) b q) ∨
      (Relation.ReflTransGen (links_pair ls) p b ∧
        Relation.ReflTransGen (links_pair ls) a q) := by
  constructor
  · intro h
    induction h using Relation.ReflTransGen.head_induction_on with
    | refl => exact Or.inl Relation.ReflTransGen.refl
    | head hs hr ih =>
      rename_i u v
      rcases (links_pair_append ls a b u v).mp hs with he | ⟨h1, h2⟩ | ⟨h1, h2⟩
      · rcases ih with h3 | ⟨h3, h4⟩ | ⟨h3, h4⟩
        · exact Or.inl (Relation.ReflTransGen.head he h3)
        · exact Or.inr (Or.inl ⟨Relation.ReflTransGen.head he h3, h4⟩)
        · exact Or.inr (Or.inr ⟨Relation.ReflTransGen.head he h3, h4⟩)
      · subst h1
        subst h2
        rcases ih with h3 | ⟨h3, h4⟩ | ⟨h3, h4⟩
        · exact Or.inr (Or.inl ⟨Relation.ReflTransGen.refl, h3⟩)
        · exact Or.inr (Or.inl ⟨Relation.ReflTransGen.refl, h4⟩)
        · exact Or.inl h4
      · subst h1
        subst h2
        rcases ih with h3 | ⟨h3, h4⟩ | ⟨h3, h4⟩
        · exact Or.inr (Or.inr ⟨Relation.ReflTransGen.refl, h3⟩)
        · exact Or.inl h4
        · exact Or.inr (Or.inr ⟨Relation.ReflTransGen.refl, h4⟩)
  · intro h
    have hmono : ∀ {u v : String}, Relation.ReflTransGen (links_pair ls) u v →
        Relation.ReflTransGen (links_pair (ls ++ [(a, b)])) u v := by
      intro u v h2
      refine Relation.ReflTransGen.mono ?_ h2
      intro c d hcd
      exact (links_pair_append ls a b c d).mpr (Or.inl hcd)
    have hedge : Relation.ReflTransGen (links_pair (ls ++ [(a, b)])) a b :=
      Relation.ReflTransGen.single ((links_pair_append ls a b a b).mpr
        (Or.inr (Or.inl ⟨rfl, rfl⟩)))
    have hedge' : Relation.ReflTransGen (links_pair (ls ++ [(a, b)])) b a :=
      reach_symm _ hedge
    rcases h with h | ⟨h1, h2⟩ | ⟨h1, h2⟩
    · exact hmono h
    · exact ((hmono h1).trans hedge).trans (hmono h2)
    · exact ((hmono h1).trans hedge').trans (hmono h2)

end BoardGameClub
namespace BoardGameClub

theorem ufg_none_none (st : Store) (a b : String)
    (ha : st.player_friend_group a = none) (hb : st.player_friend_group b = none) :
    update_friend_groups st a b =
      { st with
        global_friend_group := fupd st.global_friend_group st.next_fid
          (insert a (insert b (st.global_friend_group st.next_fid))),
        player_friend_group :=
          fupd (fupd st.player_friend_group a (some st.next_fid)) b (some st.next_fid),
        next_fid := st.next_fid + 1 } := by
  unfold update_friend_groups new_fid
  rw [ha, hb]

theorem ufg_some_none (st : Store) (a b : String) (g : Nat)
    (ha : st.player_friend_group a = some g) (hb : st.player_friend_group b = none) :
    update_friend_groups st a b =
      { st with
        global_friend_group := fupd st.global_friend_group g
          (insert b (st.global_friend_group g)),
        player_friend_group := fupd st.player_friend_group b (some g) } := by
  unfold update_friend_groups
  rw [ha, hb]

theorem ufg_none_some (st : Store) (a b : String) (g : Nat)
    (ha : st.player_friend_group a = none) (hb : st.player_friend_group b = some g) :
    update_friend_groups st a b =
      { st with
        global_friend_group := fupd st.global_friend_group g
          (insert a (st.global_friend_group g)),
        player_friend_group := fupd st.player_friend_group a (some g) } := by
  unfold update_friend_groups
  rw [ha, hb]

theorem ufg_same (st : Store) (a b : String) (g : Nat)
    (ha : st.player_friend_group a = some g) (hb : st.player_friend_group b = some g) :
    update_friend_groups st a b = st := by
  unfold update_friend_groups
  rw [ha, hb]
  dsimp only
  rw [if_pos rfl]

theorem ufg_merge_ge (st : Store) (a b : String) (g1 g2 : Nat)
    (ha : st.player_friend_group a = some g1) (hb : st.player_friend_group b = some g2)
    (hne : g1 ≠ g2)
    (hge : (st.global_friend_group g1).card ≥ (st.global_friend_group g2).card)
    (hmem : st.global_friend_group g2 ≠ ∅) :
    update_friend_groups st a b =
      { st with
        global_friend_group := fupd (fupd st.global_friend_group g1
          (st.global_friend_group g1 ∪ st.global_friend_group g2)) g2 ∅,
        player_friend_group := fun p =>
          if p ∈ st.global_friend_group g2 then some g1
          else st.player_friend_group p } := by
  unfold update_friend_groups
  rw [ha, hb]
  dsimp only
  rw [if_neg hne]
  simp only [if_pos hge]
  rw [if_neg hmem]

theorem ufg_merge_lt (st : Store) (a b : String) (g1 g2 : Nat)
    (ha : st.player_friend_group a = some g1) (hb : st.player_friend_group b = some g2)
    (hne : g1 ≠ g2)
    (hlt : ¬((st.global_friend_group g1).card ≥ (st.global_friend_group g2).card))
    (hmem : st.global_friend_group g1 ≠ ∅) :
    update_friend_groups st a b =
      { st with
        global_friend_group := fupd (fupd st.global_friend_group g2
          (st.global_friend_group g2 ∪ st.global_friend_group g1)) g1 ∅,
        player_friend_group := fun p =>
          if p ∈ st.global_friend_group g1 then some g2
          else st.player_friend_group p } := by
  unfold update_friend_groups
  rw [ha, hb]
  dsimp only
  rw [if_neg hne]
  simp only [if_neg hlt]
  rw [if_neg hmem]

end BoardGameClub
namespace BoardGameClub

theorem reach_touched (ls : List (String × String)) {p q : String}
    (h : Relation.ReflTransGen (links_pair ls) p q) (hp : touched ls p) :
    touched ls q := by
  induction h with
  | refl => exact hp
  | tail _ e _ => exact links_pair_touched ls (links_pair_symm ls e)

/-- The friend-group invariant: pointers and member sets agree, every
non-empty group id was allocated below the fid counter, and two players
share a group exactly when a chain of links connects them. -/
def fg_inv (ls : List (String × String)) (st : Store) : Prop :=
  (∀ p g, st.player_friend_group p = some g ↔ p ∈ st.global_friend_group g) ∧
  (∀ g, st.global_friend_group g ≠ ∅ → g < st.next_fid) ∧
  (∀ p q, same_group st p q ↔ chain_connected ls p q)

theorem fg_touched (ls : List (String × String)) (st : Store)
    (hinv : fg_inv ls st) (p : String) :
    (∃ g, st.player_friend_group p = some g) ↔ touched ls p := by
  have h := hinv.2.2 p p
  simp only [same_group, chain_connected] at h
  constructor
  · rintro ⟨g, hg⟩
    exact (h.mp ⟨g, hg, hg⟩).2
  · intro ht
    rcases h.mpr ⟨Relation.ReflTransGen.refl, ht⟩ with ⟨g, hg, -⟩
    exact ⟨g, hg⟩

theorem fg_inv_empty : fg_inv [] emptyStore := by
  refine ⟨?_, ?_, ?_⟩
  · intro p g
    constructor
    · intro h
      exact absurd h (by simp [emptyStore])
    · intro h
      exact absurd h (Finset.not_mem_empty p)
  · intro g hg
    exact absurd rfl hg
  · intro p q
    constructor
    · rintro ⟨g, hg, -⟩
      exact absurd hg (by simp [emptyStore])
    · rintro ⟨-, ⟨l, hl, -⟩⟩
      exact absurd hl (List.not_mem_nil l)

theorem fg_inv_swap (ls : List (String × String)) (a b : String) (st : Store)
    (h : fg_inv (ls ++ [(b, a)]) st) : fg_inv (ls ++ [(a, b)]) st := by
  obtain ⟨h1, h2, h3⟩ := h
  refine ⟨h1, h2, ?_⟩
  intro p q
  rw [h3 p q]
  have hl : ∀ u v : String,
      links_pair (ls ++ [(b, a)]) u v ↔ links_pair (ls ++ [(a, b)]) u v := by
    intro u v
    rw [links_pair_append, links_pair_append]
    tauto
  constructor
  · rintro ⟨hr, ht⟩
    refine ⟨Relation.ReflTransGen.mono (fun u v huv => (hl u v).mp huv) hr, ?_⟩
    rw [touched_append] at ht ⊢
    tauto
  · rintro ⟨hr, ht⟩
    refine ⟨Relation.ReflTransGen.mono (fun u v huv => (hl u v).mpr huv) hr, ?_⟩
    rw [touched_append] at ht ⊢
    tauto

end BoardGameClub
namespace BoardGameClub

theorem fg_step_fresh (ls : List (String × String)) (st : Store) (a b : String)
    (hinv : fg_inv ls st)
    (ha : st.player_friend_group a = none) (hb : st.player_friend_group b = none) :
    fg_inv (ls ++ [(a, b)]) (update_friend_groups st a b) := by
  obtain ⟨h1, h2, h3⟩ := hinv
  have hGn : st.global_friend_group st.next_fid = ∅ := by
    by_contra hc
    exact absurd (h2 _ hc) (lt_irrefl _)
  have hPn : ∀ x, st.player_friend_group x ≠ some st.next_fid := by
    intro x hx
    have hm := (h1 x _).mp hx
    rw [hGn] at hm
    exact absurd hm (Finset.not_mem_empty x)
  have hta : ¬touched ls a := by
    intro ht
    rcases (fg_touched ls st ⟨h1, h2, h3⟩ a).mpr ht with ⟨g, hg⟩
    rw [ha] at hg
    exact Option.noConfusion hg
  have htb : ¬touched ls b := by
    intro ht
    rcases (fg_touched ls st ⟨h1, h2, h3⟩ b).mpr ht with ⟨g, hg⟩
    rw [hb] at hg
    exact Option.noConfusion hg
  rw [ufg_none_none st a b ha hb]
  have hchar : ∀ (x : String) (g : Nat),
      fupd (fupd st.player_friend_group a (some st.next_fid)) b (some st.next_fid) x =
        some g ↔
      ((x = a ∨ x = b) ∧ g = st.next_fid) ∨
        (x ≠ a ∧ x ≠ b ∧ st.player_friend_group x = some g) := by
    intro x g
    simp only [fupd]
    by_cases hxb : x = b
    · subst hxb
      rw [if_pos rfl]
      constructor
      · intro h
        exact Or.inl ⟨Or.inr rfl, (Option.some.inj h).symm⟩
      · rintro (⟨-, hg⟩ | ⟨-, hxb2, -⟩)
        · rw [hg]
        · exact absurd rfl hxb2
    · rw [if_neg hxb]
      by_cases hxa : x = a
      · subst hxa
        rw [if_pos rfl]
        constructor
        · intro h
          exact Or.inl ⟨Or.inl rfl, (Option.some.inj h).symm⟩
        · rintro (⟨-, hg⟩ | ⟨hxa2, -, -⟩)
          · rw [hg]
          · exact absurd rfl hxa2
      · rw [if_neg hxa]
        constructor
        · intro h
          exact Or.inr ⟨hxa, hxb, h⟩
        · rintro (⟨hx, -⟩ | ⟨-, -, h⟩)
          · rcases hx with h | h
            · exact absurd h hxa
            · exact absurd h hxb
          · exact h
  refine ⟨?_, ?_, ?_⟩
  · intro p g
    dsimp only
    rw [hchar p g]
    simp only [fupd]
    by_cases hgn : g = st.next_fid
    · subst hgn
      rw [if_pos rfl]
      constructor
      · rintro (⟨hp, -⟩ | ⟨-, -, hp⟩)
        · rcases hp with hp | hp
          · subst hp; exact Finset.mem_insert_self _ _
          · subst hp
            exact Finset.mem_insert_of_mem (Finset.mem_insert_self _ _)
        · exact absurd hp (hPn p)
      · intro hm
        rcases Finset.mem_insert.mp hm with hp | hm2
        · exact Or.inl ⟨Or.inl hp, rfl⟩
        · rcases Finset.mem_insert.mp hm2 with hp | hm3
          · exact Or.inl ⟨Or.inr hp, rfl⟩
          · rw [hGn] at hm3
            exact absurd hm3 (Finset.not_mem_empty p)
    · rw [if_neg hgn]
      constructor
      · rintro (⟨-, hg⟩ | ⟨-, -, hp⟩)
        · exact absurd hg hgn
        · exact (h1 p g).mp hp
      · intro hm
        have hp := (h1 p g).mpr hm
        have hpa : p ≠ a := by
          intro h; rw [h, ha] at hp; exact Option.noConfusion hp
        have hpb : p ≠ b := by
          intro h; rw [h, hb] at hp; exact Option.noConfusion hp
        exact Or.inr ⟨hpa, hpb, hp⟩
  · intro g hg
    dsimp only at hg ⊢
    simp only [fupd] at hg
    by_cases hgn : g = st.next_fid
    · rw [hgn]
      exact Nat.lt_succ_self _
    · rw [if_neg hgn] at hg
      exact Nat.lt_succ_of_lt (h2 g hg)
  · intro p q
    simp only [same_group, chain_connected]
    constructor
    · rintro ⟨g, hgp, hgq⟩
      rw [hchar p g] at hgp
      rw [hchar q g] at hgq
      rcases hgp with ⟨hp, hgn⟩ | ⟨hpa, hpb, hp⟩
      · rcases hgq with ⟨hq, -⟩ | ⟨-, -, hq⟩
        · refine ⟨?_, ?_⟩
          · apply (reaches_append ls a b p q).mpr
            rcases hp with hp | hp <;> rcases hq with hq | hq
            · subst hp; subst hq; exact Or.inl Relation.ReflTransGen.refl
            · subst hp; subst hq
              exact Or.inr (Or.inl ⟨Relation.ReflTransGen.refl,
                Relation.ReflTransGen.refl⟩)
            · subst hp; subst hq
              exact Or.inr (Or.inr ⟨Relation.ReflTransGen.refl,
                Relation.ReflTransGen.refl⟩)
            · subst hp; subst hq; exact Or.inl Relation.ReflTransGen.refl
          · apply (touched_append ls a b p).mpr
            rcases hp with hp | hp
            · exact Or.inr (Or.inl hp.symm)
            · exact Or.inr (Or.inr hp.symm)
        · subst hgn
          exact absurd hq (hPn q)
      · rcases hgq with ⟨-, hgn⟩ | ⟨-, -, hq⟩
        · subst hgn
          exact absurd hp (hPn p)
        · have hch := (h3 p q).mp ⟨g, hp, hq⟩
          exact ⟨Relation.ReflTransGen.mono
              (fun u v huv => (links_pair_append ls a b u v).mpr (Or.inl huv)) hch.1,
            (touched_append ls a b p).mpr (Or.inl hch.2)⟩
    · rintro ⟨hr, ht⟩
      rcases (touched_append ls a b p).mp ht with htp | rfl | rfl
      · have hpa : p ≠ a := fun h => hta (h ▸ htp)
        have hpb : p ≠ b := fun h => htb (h ▸ htp)
        rcases (reaches_append ls a b p q).mp hr with hr0 | ⟨h1r, h2r⟩ | ⟨h1r, h2r⟩
        · have htq := reach_touched ls hr0 htp
          have hqa : q ≠ a := fun h => hta (h ▸ htq)
          have hqb : q ≠ b := fun h => htb (h ▸ htq)
          rcases (h3 p q).mpr ⟨hr0, htp⟩ with ⟨g, hgp, hgq⟩
          refine ⟨g, ?_, ?_⟩
          · rw [hchar p g]; exact Or.inr ⟨hpa, hpb, hgp⟩
          · rw [hchar q g]; exact Or.inr ⟨hqa, hqb, hgq⟩
        · exact absurd (reach_touched ls h1r htp) hta
        · exact absurd (reach_touched ls h1r htp) htb
      · rcases (reaches_append ls a b a q).mp hr with hr0 | ⟨h1r, h2r⟩ | ⟨h1r, h2r⟩
        · have heq := untouched_reach_eq ls hta hr0
          subst heq
          exact ⟨st.next_fid, (hchar a st.next_fid).mpr (Or.inl ⟨Or.inl rfl, rfl⟩),
            (hchar a st.next_fid).mpr (Or.inl ⟨Or.inl rfl, rfl⟩)⟩
        · have heq := untouched_reach_eq ls htb h2r
          subst heq
          exact ⟨st.next_fid, (hchar a st.next_fid).mpr (Or.inl ⟨Or.inl rfl, rfl⟩),
            (hchar b st.next_fid).mpr (Or.inl ⟨Or.inr rfl, rfl⟩)⟩
        · have heq := untouched_reach_eq ls hta h2r
          subst heq
          exact ⟨st.next_fid, (hchar a st.next_fid).mpr (Or.inl ⟨Or.inl rfl, rfl⟩),
            (hchar a st.next_fid).mpr (Or.inl ⟨Or.inl rfl, rfl⟩)⟩
      · rcases (reaches_append ls a b b q).mp hr with hr0 | ⟨h1r, h2r⟩ | ⟨h1r, h2r⟩
        · have heq := untouched_reach_eq ls htb hr0
          subst heq
          exact ⟨st.next_fid, (hchar b st.next_fid).mpr (Or.inl ⟨Or.inr rfl, rfl⟩),
            (hchar b st.next_fid).mpr (Or.inl ⟨Or.inr rfl, rfl⟩)⟩
        · have heq := untouched_reach_eq ls htb h2r
          subst heq
          exact ⟨st.next_fid, (hchar b st.next_fid).mpr (Or.inl ⟨Or.inr rfl, rfl⟩),
            (hchar b st.next_fid).mpr (Or.inl ⟨Or.inr rfl, rfl⟩)⟩
        · have heq := untouched_reach_eq ls hta h2r
          subst heq
          exact ⟨st.next_fid, (hchar b st.next_fid).mpr (Or.inl ⟨Or.inr rfl, rfl⟩),
            (hchar a st.next_fid).mpr (Or.inl ⟨Or.inl rfl, rfl⟩)⟩
      
end BoardGameClub
namespace BoardGameClub

theorem fg_join_inv (ls : List (String × String)) (st : Store) (u v : String)
    (g0 : Nat) (hinv : fg_inv ls st)
    (hu : st.player_friend_group u = some g0) (hv : st.player_friend_group v = none) :
    fg_inv (ls ++ [(u, v)])
      { st with
        global_friend_group := fupd st.global_friend_group g0
          (insert v (st.global_friend_group g0)),
        player_friend_group := fupd st.player_friend_group v (some g0) } := by
  obtain ⟨h1, h2, h3⟩ := hinv
  have htu : touched ls u := (fg_touched ls st ⟨h1, h2, h3⟩ u).mp ⟨g0, hu⟩
  have htv : ¬touched ls v := by
    intro ht
    rcases (fg_touched ls st ⟨h1, h2, h3⟩ v).mpr ht with ⟨g, hg⟩
    rw [hv] at hg
    exact Option.noConfusion hg
  have huv : u ≠ v := by
    intro h
    rw [h, hv] at hu
    exact Option.noConfusion hu
  have hvG : ∀ g, v ∉ st.global_friend_group g := by
    intro g hg
    have := (h1 v g).mpr hg
    rw [hv] at this
    exact Option.noConfusion this
  have huG : u ∈ st.global_friend_group g0 := (h1 u g0).mp hu
  have hchar : ∀ (x : String) (g : Nat),
      fupd st.player_friend_group v (some g0) x = some g ↔
      (x = v ∧ g = g0) ∨ (x ≠ v ∧ st.player_friend_group x = some g) := by
    intro x g
    simp only [fupd]
    by_cases hxv : x = v
    · subst hxv
      rw [if_pos rfl]
      constructor
      · intro h
        exact Or.inl ⟨rfl, (Option.some.inj h).symm⟩
      · rintro (⟨-, hg⟩ | ⟨hx, -⟩)
        · rw [hg]
        · exact absurd rfl hx
    · rw [if_neg hxv]
      constructor
      · intro h
        exact Or.inr ⟨hxv, h⟩
      · rintro (⟨hx, -⟩ | ⟨-, h⟩)
        · exact absurd hx hxv
        · exact h
  have hreach0 : ∀ x, st.player_friend_group x = some g0 ↔
      Relation.ReflTransGen (links_pair ls) x u := by
    intro x
    constructor
    · intro hx
      exact ((h3 x u).mp ⟨g0, hx, hu⟩).1
    · intro hr
      have htx : touched ls x := reach_touched ls (reach_symm ls hr) htu
      rcases (h3 x u).mpr ⟨hr, htx⟩ with ⟨g, hx, hu2⟩
      rw [hu] at hu2
      rw [Option.some.inj hu2]
      exact hx
  refine ⟨?_, ?_, ?_⟩
  · intro p g
    dsimp only
    rw [hchar p g]
    simp only [fupd]
    by_cases hgg : g = g0
    · subst hgg
      rw [if_pos rfl]
      constructor
      · rintro (⟨hp, -⟩ | ⟨-, hp⟩)
        · subst hp
          exact Finset.mem_insert_self _ _
        · exact Finset.mem_insert_of_mem ((h1 p g).mp hp)
      · intro hm
        rcases Finset.mem_insert.mp hm with hp | hm2
        · exact Or.inl ⟨hp, rfl⟩
        · have hpv : p ≠ v := by
            intro h
            subst h
            exact hvG g hm2
          exact Or.inr ⟨hpv, (h1 p g).mpr hm2⟩
    · rw [if_neg hgg]
      constructor
      · rintro (⟨-, hg⟩ | ⟨-, hp⟩)
        · exact absurd hg hgg
        · exact (h1 p g).mp hp
      · intro hm
        have hpv : p ≠ v := by
          intro h
          subst h
          exact hvG g hm
        exact Or.inr ⟨hpv, (h1 p g).mpr hm⟩
  · intro g hg
    dsimp only at hg ⊢
    simp only [fupd] at hg
    by_cases hgg : g = g0
    · subst hgg
      exact h2 g (by
        intro hemp
        rw [hemp] at huG
        exact absurd huG (Finset.not_mem_empty u))
    · rw [if_neg hgg] at hg
      exact h2 g hg
  · intro p q
    simp only [same_group, chain_connected]
    constructor
    · rintro ⟨g, hgp, hgq⟩
      rw [hchar p g] at hgp
      rw [hchar q g] at hgq
      rcases hgp with ⟨hpv, hgg⟩ | ⟨hpv, hp⟩
      · subst hpv
        rcases hgq with ⟨hqv, -⟩ | ⟨-, hq⟩
        · rw [hqv]
          exact ⟨Relation.ReflTransGen.refl,
            (touched_append ls u p p).mpr (Or.inr (Or.inr rfl))⟩
        · rw [hgg] at hq
          refine ⟨(reaches_append ls u p p q).mpr ?_,
            (touched_append ls u p p).mpr (Or.inr (Or.inr rfl))⟩
          exact Or.inr (Or.inr ⟨Relation.ReflTransGen.refl,
            reach_symm ls ((hreach0 q).mp hq)⟩)
      · rcases hgq with ⟨hqv, hgg⟩ | ⟨hqv, hq⟩
        · subst hqv
          rw [hgg] at hp
          refine ⟨(reaches_append ls u q p q).mpr ?_,
            (touched_append ls u q p).mpr
              (Or.inl ((fg_touched ls st ⟨h1, h2, h3⟩ p).mp ⟨g0, hp⟩))⟩
          exact Or.inr (Or.inl ⟨(hreach0 p).mp hp, Relation.ReflTransGen.refl⟩)
        · have hch := (h3 p q).mp ⟨g, hp, hq⟩
          exact ⟨Relation.ReflTransGen.mono
              (fun x y hxy => (links_pair_append ls u v x y).mpr (Or.inl hxy)) hch.1,
            (touched_append ls u v p).mpr (Or.inl hch.2)⟩
    · rintro ⟨hr, ht⟩
      rcases (touched_append ls u v p).mp ht with htp | rfl | rfl
      · have hpv : p ≠ v := fun h => htv (h ▸ htp)
        rcases (reaches_append ls u v p q).mp hr with hr0 | ⟨h1r, h2r⟩ | ⟨h1r, h2r⟩
        · have htq := reach_touched ls hr0 htp
          have hqv : q ≠ v := fun h => htv (h ▸ htq)
          rcases (h3 p q).mpr ⟨hr0, htp⟩ with ⟨g, hgp, hgq⟩
          exact ⟨g, (hchar p g).mpr (Or.inr ⟨hpv, hgp⟩),
            (hchar q g).mpr (Or.inr ⟨hqv, hgq⟩)⟩
        · have heq := untouched_reach_eq ls htv h2r
          subst heq
          exact ⟨g0, (hchar p g0).mpr (Or.inr ⟨hpv, (hreach0 p).mpr h1r⟩),
            (hchar v g0).mpr (Or.inl ⟨rfl, rfl⟩)⟩
        · have heq := untouched_reach_eq ls htv (reach_symm ls h1r)
          exact absurd heq.symm hpv
      · rcases (reaches_append ls u v u q).mp hr with hr0 | ⟨h1r, h2r⟩ | ⟨h1r, h2r⟩
        · have htq := reach_touched ls hr0 htu
          have hqv : q ≠ v := fun h => htv (h ▸ htq)
          rcases (h3 u q).mpr ⟨hr0, htu⟩ with ⟨g, hgp, hgq⟩
          exact ⟨g, (hchar u g).mpr (Or.inr ⟨huv, hgp⟩),
            (hchar q g).mpr (Or.inr ⟨hqv, hgq⟩)⟩
        · have heq := untouched_reach_eq ls htv h2r
          subst heq
          exact ⟨g0, (hchar u g0).mpr (Or.inr ⟨huv, hu⟩),
            (hchar v g0).mpr (Or.inl ⟨rfl, rfl⟩)⟩
        · have heq := untouched_reach_eq ls htv (reach_symm ls h1r)
          exact absurd heq.symm huv
      · rcases (reaches_append ls u v v q).mp hr with hr0 | ⟨h1r, h2r⟩ | ⟨h1r, h2r⟩
        · have heq := untouched_reach_eq ls htv hr0
          subst heq
          exact ⟨g0, (hchar v g0).mpr (Or.inl ⟨rfl, rfl⟩),
            (hchar v g0).mpr (Or.inl ⟨rfl, rfl⟩)⟩
        · exact absurd (untouched_reach_eq ls htv h1r).symm huv
        · by_cases hqv : q = v
          · subst hqv
            exact ⟨g0, (hchar q g0).mpr (Or.inl ⟨rfl, rfl⟩),
              (hchar q g0).mpr (Or.inl ⟨rfl, rfl⟩)⟩
          · have hq0 : st.player_friend_group q = some g0 :=
              (hreach0 q).mpr (reach_symm ls h2r)
            exact ⟨g0, (hchar v g0).mpr (Or.inl ⟨rfl, rfl⟩),
              (hchar q g0).mpr (Or.inr ⟨hqv, hq0⟩)⟩

end BoardGameClub
namespace BoardGameClub

theorem fg_step_same (ls : List (String × String)) (st : Store) (a b : String)
    (g0 : Nat) (hinv : fg_inv ls st)
    (ha : st.player_friend_group a = some g0)
    (hb : st.player_friend_group b = some g0) :
    fg_inv (ls ++ [(a, b)]) st := by
  obtain ⟨h1, h2, h3⟩ := hinv
  have hch := (h3 a b).mp ⟨g0, ha, hb⟩
  have hrab : Relation.ReflTransGen (links_pair ls) a b := hch.1
  have hta : touched ls a := hch.2
  have htb : touched ls b := reach_touched ls hrab hta
  refine ⟨h1, h2, ?_⟩
  intro p q
  rw [h3 p q]
  constructor
  · rintro ⟨hr, ht⟩
    exact ⟨Relation.ReflTransGen.mono
        (fun x y hxy => (links_pair_append ls a b x y).mpr (Or.inl hxy)) hr,
      (touched_append ls a b p).mpr (Or.inl ht)⟩
  · rintro ⟨hr, ht⟩
    have ht2 : touched ls p := by
      rcases (touched_append ls a b p).mp ht with h | rfl | rfl
      · exact h
      · exact hta
      · exact htb
    refine ⟨?_, ht2⟩
    rcases (reaches_append ls a b p q).mp hr with hr0 | ⟨h1r, h2r⟩ | ⟨h1r, h2r⟩
    · exact hr0
    · exact Relation.ReflTransGen.trans h1r (Relation.ReflTransGen.trans hrab h2r)
    · exact Relation.ReflTransGen.trans h1r
        (Relation.ReflTransGen.trans (reach_symm ls hrab) h2r)

theorem fg_merge_inv (ls : List (String × String)) (st : Store) (a b : String)
    (ga gb big small : Nat) (hinv : fg_inv ls st)
    (hpa : st.player_friend_group a = some ga)
    (hpb : st.player_friend_group b = some gb)
    (hne : ga ≠ gb)
    (hbs : (big = ga ∧ small = gb) ∨ (big = gb ∧ small = ga)) :
    fg_inv (ls ++ [(a, b)])
      { st with
        global_friend_group := fupd (fupd st.global_friend_group big
          (st.global_friend_group big ∪ st.global_friend_group small)) small ∅,
        player_friend_group := fun p =>
          if p ∈ st.global_friend_group small then some big
          else st.player_friend_group p } := by
  obtain ⟨h1, h2, h3⟩ := hinv
  have hbsne : big ≠ small := by
    rcases hbs with ⟨hb1, hb2⟩ | ⟨hb1, hb2⟩
    · rw [hb1, hb2]; exact hne
    · rw [hb1, hb2]; exact hne.symm
  have haG : a ∈ st.global_friend_group ga := (h1 a ga).mp hpa
  have hbG : b ∈ st.global_friend_group gb := (h1 b gb).mp hpb
  have hta : touched ls a := (fg_touched ls st ⟨h1, h2, h3⟩ a).mp ⟨ga, hpa⟩
  have htb : touched ls b := (fg_touched ls st ⟨h1, h2, h3⟩ b).mp ⟨gb, hpb⟩
  have hGbig : st.global_friend_group big ≠ ∅ := by
    rcases hbs with ⟨hb1, -⟩ | ⟨hb1, -⟩
    · rw [hb1]; exact Finset.ne_empty_of_mem haG
    · rw [hb1]; exact Finset.ne_empty_of_mem hbG
  have hsmall : ∀ x, x ∈ st.global_friend_group small ↔
      st.player_friend_group x = some small := fun x => (h1 x small).symm
  have hra : ∀ x, st.player_friend_group x = some ga ↔
      Relation.ReflTransGen (links_pair ls) x a := by
    intro x
    constructor
    · intro hx
      exact ((h3 x a).mp ⟨ga, hx, hpa⟩).1
    · intro hr
      have htx : touched ls x := reach_touched ls (reach_symm ls hr) hta
      rcases (h3 x a).mpr ⟨hr, htx⟩ with ⟨g, hx, ha2⟩
      rw [hpa] at ha2
      rw [Option.some.inj ha2]
      exact hx
  have hrb : ∀ x, st.player_friend_group x = some gb ↔
      Relation.ReflTransGen (links_pair ls) x b := by
    intro x
    constructor
    · intro hx
      exact ((h3 x b).mp ⟨gb, hx, hpb⟩).1
    · intro hr
      have htx : touched ls x := reach_touched ls (reach_symm ls hr) htb
      rcases (h3 x b).mpr ⟨hr, htx⟩ with ⟨g, hx, hb2⟩
      rw [hpb] at hb2
      rw [Option.some.inj hb2]
      exact hx
  have hC : ∀ x, (st.player_friend_group x = some big ∨
      st.player_friend_group x = some small) ↔
      (Relation.ReflTransGen (links_pair ls) x a ∨
        Relation.ReflTransGen (links_pair ls) x b) := by
    intro x
    rw [← hra x, ← hrb x]
    rcases hbs with ⟨hb1, hb2⟩ | ⟨hb1, hb2⟩
    · rw [hb1, hb2]
    · rw [hb1, hb2]; tauto
  have hchar : ∀ (x : String) (g : Nat),
      (if x ∈ st.global_friend_group small then some big
        else st.player_friend_group x) = some g ↔
      (x ∈ st.global_friend_group small ∧ g = big) ∨
        (x ∉ st.global_friend_group small ∧ st.player_friend_group x = some g) := by
    intro x g
    by_cases hx : x ∈ st.global_friend_group small
    · rw [if_pos hx]
      constructor
      · intro h
        exact Or.inl ⟨hx, (Option.some.inj h).symm⟩
      · rintro (⟨-, hg⟩ | ⟨hx2, -⟩)
        · rw [hg]
        · exact absurd hx hx2
    · rw [if_neg hx]
      constructor
      · intro h
        exact Or.inr ⟨hx, h⟩
      · rintro (⟨hx2, -⟩ | ⟨-, h⟩)
        · exact absurd hx2 hx
        · exact h
  refine ⟨?_, ?_, ?_⟩
  · intro p g
    dsimp only
    rw [hchar p g]
    simp only [fupd]
    by_cases hgs : g = small
    · rw [if_pos hgs]
      constructor
      · rintro (⟨hm, hgb⟩ | ⟨hnm, hp⟩)
        · rw [hgb] at hgs
          exact absurd hgs hbsne
        · rw [hgs] at hp
          exact absurd ((hsmall p).mpr hp) hnm
      · intro h
        exact absurd h (Finset.not_mem_empty p)
    · rw [if_neg hgs]
      by_cases hgb : g = big
      · rw [if_pos hgb]
        rw [hgb]
        constructor
        · rintro (⟨hm, -⟩ | ⟨hnm, hp⟩)
          · exact Finset.mem_union_right _ hm
          · exact Finset.mem_union_left _ ((h1 p big).mp hp)
        · intro hm
          rcases Finset.mem_union.mp hm with hm2 | hm2
          · by_cases hps : p ∈ st.global_friend_group small
            · exact Or.inl ⟨hps, rfl⟩
            · exact Or.inr ⟨hps, (h1 p big).mpr hm2⟩
          · exact Or.inl ⟨hm2, rfl⟩
      · rw [if_neg hgb]
        constructor
        · rintro (⟨-, hgb2⟩ | ⟨-, hp⟩)
          · exact absurd hgb2 hgb
          · exact (h1 p g).mp hp
        · intro hm
          have hp := (h1 p g).mpr hm
          have hps : p ∉ st.global_friend_group small := by
            intro hmem
            have hsm := (hsmall p).mp hmem
            rw [hp] at hsm
            exact absurd (Option.some.inj hsm) hgs
          exact Or.inr ⟨hps, hp⟩
  · intro g hg
    dsimp only at hg ⊢
    simp only [fupd] at hg
    by_cases hgs : g = small
    · rw [if_pos hgs] at hg
      exact absurd rfl hg
    · rw [if_neg hgs] at hg
      by_cases hgb : g = big
      · rw [hgb]
        exact h2 big hGbig
      · rw [if_neg hgb] at hg
        exact h2 g hg
  · intro p q
    simp only [same_group, chain_connected]
    have hCchain : ∀ x y : String,
        (Relation.ReflTransGen (links_pair ls) x a ∨
          Relation.ReflTransGen (links_pair ls) x b) →
        (Relation.ReflTransGen (links_pair ls) y a ∨
          Relation.ReflTransGen (links_pair ls) y b) →
        touched ls x →
        Relation.ReflTransGen (links_pair (ls ++ [(a, b)])) x y ∧
          touched (ls ++ [(a, b)]) x := by
      intro x y hx hy htx
      refine ⟨(reaches_append ls a b x y).mpr ?_,
        (touched_append ls a b x).mpr (Or.inl htx)⟩
      rcases hx with hx | hx <;> rcases hy with hy | hy
      · exact Or.inl (Relation.ReflTransGen.trans hx (reach_symm ls hy))
      · exact Or.inr (Or.inl ⟨hx, reach_symm ls hy⟩)
      · exact Or.inr (Or.inr ⟨hx, reach_symm ls hy⟩)
      · exact Or.inl (Relation.ReflTransGen.trans hx (reach_symm ls hy))
    constructor
    · rintro ⟨g, hgp, hgq⟩
      rw [hchar p g] at hgp
      rw [hchar q g] at hgq
      rcases hgp with ⟨hmp, hgb⟩ | ⟨hnmp, hp⟩
      · have hCp := (hC p).mp (Or.inr ((hsmall p).mp hmp))
        have htp : touched ls p :=
          (fg_touched ls st ⟨h1, h2, h3⟩ p).mp ⟨small, (hsmall p).mp hmp⟩
        rcases hgq with ⟨hmq, -⟩ | ⟨hnmq, hq⟩
        · exact hCchain p q hCp ((hC q).mp (Or.inr ((hsmall q).mp hmq))) htp
        · rw [hgb] at hq
          exact hCchain p q hCp ((hC q).mp (Or.inl hq)) htp
      · rcases hgq with ⟨hmq, hgb⟩ | ⟨hnmq, hq⟩
        · rw [hgb] at hp
          have htp : touched ls p :=
            (fg_touched ls st ⟨h1, h2, h3⟩ p).mp ⟨big, hp⟩
          exact hCchain p q ((hC p).mp (Or.inl hp))
            ((hC q).mp (Or.inr ((hsmall q).mp hmq))) htp
        · have hch := (h3 p q).mp ⟨g, hp, hq⟩
          exact ⟨Relation.ReflTransGen.mono
              (fun x y hxy => (links_pair_append ls a b x y).mpr (Or.inl hxy)) hch.1,
            (touched_append ls a b p).mpr (Or.inl hch.2)⟩
    · rintro ⟨hr, ht⟩
      have htp : touched ls p := by
        rcases (touched_append ls a b p).mp ht with h | rfl | rfl
        · exact h
        · exact hta
        · exact htb
      have hCptr : ∀ x, (Relation.ReflTransGen (links_pair ls) x a ∨
          Relation.ReflTransGen (links_pair ls) x b) →
          (if x ∈ st.global_friend_group small then some big
            else st.player_friend_group x) = some big := by
        intro x hx
        rcases (hC x).mpr hx with hxb | hxs
        · by_cases hxm : x ∈ st.global_friend_group small
          · rw [if_pos hxm]
          · rw [if_neg hxm]; exact hxb
        · rw [if_pos ((hsmall x).mpr hxs)]
      rcases (reaches_append ls a b p q).mp hr with hr0 | ⟨h1r, h2r⟩ | ⟨h1r, h2r⟩
      · by_cases hCp : Relation.ReflTransGen (links_pair ls) p a ∨
            Relation.ReflTransGen (links_pair ls) p b
        · have hCq : Relation.ReflTransGen (links_pair ls) q a ∨
              Relation.ReflTransGen (links_pair ls) q b := by
            rcases hCp with h | h
            · exact Or.inl (Relation.ReflTransGen.trans (reach_symm ls hr0) h)
            · exact Or.inr (Relation.ReflTransGen.trans (reach_symm ls hr0) h)
          exact ⟨big, hCptr p hCp, hCptr q hCq⟩
        · rcases (h3 p q).mpr ⟨hr0, htp⟩ with ⟨g, hgp, hgq⟩
          refine ⟨g, ?_, ?_⟩
          · rw [hchar p g]
            refine Or.inr ⟨?_, hgp⟩
            intro hm
            exact hCp ((hC p).mp (Or.inr ((hsmall p).mp hm)))
          · rw [hchar q g]
            refine Or.inr ⟨?_, hgq⟩
            intro hm
            apply hCp
            rcases (hC q).mp (Or.inr ((hsmall q).mp hm)) with h | h
            · exact Or.inl (Relation.ReflTransGen.trans hr0 h)
            · exact Or.inr (Relation.ReflTransGen.trans hr0 h)
      · exact ⟨big, hCptr p (Or.inl h1r), hCptr q (Or.inr (reach_symm ls h2r))⟩
      · exact ⟨big, hCptr p (Or.inr h1r), hCptr q (Or.inl (reach_symm ls h2r))⟩

end BoardGameClub
namespace BoardGameClub

theorem fg_inv_step (ls : List (String × String)) (st : Store) (a b : String)
    (hinv : fg_inv ls st) : fg_inv (ls ++ [(a, b)]) (update_friend_groups st a b) := by
  rcases hpa : st.player_friend_group a with _ | ga
  · rcases hpb : st.player_friend_group b with _ | gb
    · exact fg_step_fresh ls st a b hinv hpa hpb
    · rw [ufg_none_some st a b gb hpa hpb]
      exact fg_inv_swap ls a b _ (fg_join_inv ls st b a gb hinv hpb hpa)
  · rcases hpb : st.player_friend_group b with _ | gb
    · rw [ufg_some_none st a b ga hpa hpb]
      exact fg_join_inv ls st a b ga hinv hpa hpb
    · by_cases hgg : ga = gb
      · subst hgg
        rw [ufg_same st a b ga hpa hpb]
        exact fg_step_same ls st a b ga hinv hpa hpb
      · have hbmem : b ∈ st.global_friend_group gb := (hinv.1 b gb).mp hpb
        have hamem : a ∈ st.global_friend_group ga := (hinv.1 a ga).mp hpa
        by_cases hge : (st.global_friend_group ga).card ≥
            (st.global_friend_group gb).card
        · rw [ufg_merge_ge st a b ga gb hpa hpb hgg hge
            (Finset.ne_empty_of_mem hbmem)]
          exact fg_merge_inv ls st a b ga gb ga gb hinv hpa hpb hgg
            (Or.inl ⟨rfl, rfl⟩)
        · rw [ufg_merge_lt st a b ga gb hpa hpb hgg hge
            (Finset.ne_empty_of_mem hamem)]
          exact fg_merge_inv ls st a b ga gb gb ga hinv hpa hpb hgg
            (Or.inr ⟨rfl, rfl⟩)

theorem run_friend_groups_inv (ls : List (String × String)) :
    fg_inv ls (run_friend_groups ls) := by
  induction ls using List.reverseRecOn with
  | nil => exact fg_inv_empty
  | append_singleton xs x ih =>
    have hrw : run_friend_groups (xs ++ [x]) =
        update_friend_groups (run_friend_groups xs) x.1 x.2 := by
      unfold run_friend_groups
      rw [List.foldl_append]
      rfl
    rw [hrw]
    exact fg_inv_step xs (run_friend_groups xs) x.1 x.2 ih

end BoardGameClub
namespace BoardGameClub

theorem ufg_merge_ge_empty (st : Store) (a b : String) (g1 g2 : Nat)
    (ha : st.player_friend_group a = some g1)
    (hb : st.player_friend_group b = some g2) (hne : g1 ≠ g2)
    (hge : (st.global_friend_group g1).card ≥ (st.global_friend_group g2).card)
    (hmem : st.global_friend_group g2 = ∅) :
    update_friend_groups st a b = st := by
  unfold update_friend_groups
  rw [ha, hb]
  dsimp only
  rw [if_neg hne]
  simp only [if_pos hge]
  rw [if_pos hmem]

theorem ufg_merge_lt_empty (st : Store) (a b : String) (g1 g2 : Nat)
    (ha : st.player_friend_group a = some g1)
    (hb : st.player_friend_group b = some g2) (hne : g1 ≠ g2)
    (hlt : ¬((st.global_friend_group g1).card ≥ (st.global_friend_group g2).card))
    (hmem : st.global_friend_group g1 = ∅) :
    update_friend_groups st a b = st := by
  unfold update_friend_groups
  rw [ha, hb]
  dsimp only
  rw [if_neg hne]
  simp only [if_neg hlt]
  rw [if_pos hmem]

theorem fg_merge_spec (st : Store) (a b : String) (g1 g2 : Nat)
    (hpa : st.player_friend_group a = some g1)
    (hpb : st.player_friend_group b = some g2) (hne : g1 ≠ g2) :
    ∃ big small : Nat,
      ((big, small) = (g1, g2) ∨ (big, small) = (g2, g1)) ∧
      (st.global_friend_group small).card ≤ (st.global_friend_group big).card ∧
      (update_friend_groups st a b).global_friend_group big =
        st.global_friend_group big ∪ st.global_friend_group small ∧
      (update_friend_groups st a b).global_friend_group small = ∅ ∧
      (∀ p, p ∈ st.global_friend_group small →
        (update_friend_groups st a b).player_friend_group p = some big) ∧
      (∀ p, p ∉ st.global_friend_group small →
        (update_friend_groups st a b).player_friend_group p =
          st.player_friend_group p) ∧
      (∀ g, g ≠ big → g ≠ small →
        (update_friend_groups st a b).global_friend_group g =
          st.global_friend_group g) := by
  by_cases hge : (st.global_friend_group g1).card ≥ (st.global_friend_group g2).card
  · by_cases hm : st.global_friend_group g2 = ∅
    · have hst : update_friend_groups st a b = st :=
        ufg_merge_ge_empty st a b g1 g2 hpa hpb hne hge hm
      refine ⟨g1, g2, Or.inl rfl, hge, ?_, ?_, ?_, ?_, ?_⟩
      · rw [hst, hm, Finset.union_empty]
      · rw [hst]; exact hm
      · intro p hp
        rw [hm] at hp
        exact absurd hp (Finset.not_mem_empty p)
      · intro p hp
        rw [hst]
      · intro g hgb hgs
        rw [hst]
    · have hst := ufg_merge_ge st a b g1 g2 hpa hpb hne hge hm
      refine ⟨g1, g2, Or.inl rfl, hge, ?_, ?_, ?_, ?_, ?_⟩
      · rw [hst]
        dsimp only
        simp only [fupd, if_neg hne, if_true]
      · rw [hst]
        dsimp only
        simp only [fupd, if_true]
      · intro p hp
        rw [hst]
        dsimp only
        rw [if_pos hp]
      · intro p hp
        rw [hst]
        dsimp only
        rw [if_neg hp]
      · intro g hgb hgs
        rw [hst]
        dsimp only
        simp only [fupd]
        rw [if_neg hgs, if_neg hgb]
  · have hle : (st.global_friend_group g1).card ≤ (st.global_friend_group g2).card := by
      omega
    by_cases hm : st.global_friend_group g1 = ∅
    · have hst : update_friend_groups st a b = st :=
        ufg_merge_lt_empty st a b g1 g2 hpa hpb hne hge hm
      refine ⟨g2, g1, Or.inr rfl, hle, ?_, ?_, ?_, ?_, ?_⟩
      · rw [hst, hm, Finset.union_empty]
      · rw [hst]; exact hm
      · intro p hp
        rw [hm] at hp
        exact absurd hp (Finset.not_mem_empty p)
      · intro p hp
        rw [hst]
      · intro g hgb hgs
        rw [hst]
    · have hst := ufg_merge_lt st a b g1 g2 hpa hpb hne hge hm
      refine ⟨g2, g1, Or.inr rfl, hle, ?_, ?_, ?_, ?_, ?_⟩
      · rw [hst]
        dsimp only
        simp only [fupd, if_neg (Ne.symm hne), if_true]
      · rw [hst]
        dsimp only
        simp only [fupd, if_true]
      · intro p hp
        rw [hst]
        dsimp only
        rw [if_pos hp]
      · intro p hp
        rw [hst]
        dsimp only
        rw [if_neg hp]
      · intro g hgb hgs
        rw [hst]
        dsimp only
        simp only [fupd]
        rw [if_neg hgs, if_neg hgb]

theorem fg_no_member_loss (st : Store) (a b : String) (g : Nat) (p : String)
    (hp : p ∈ st.global_friend_group g) :
    p ∈ (update_friend_groups st a b).global_friend_group g ∨
    ((update_friend_groups st a b).global_friend_group g = ∅ ∧
      ∃ g2, p ∈ (update_friend_groups st a b).global_friend_group g2) := by
  rcases hpa : st.player_friend_group a with _ | ga
  · rcases hpb : st.player_friend_group b with _ | gb
    · left
      rw [ufg_none_none st a b hpa hpb]
      dsimp only
      simp only [fupd]
      by_cases hgn : g = st.next_fid
      · rw [if_pos hgn]
        rw [hgn] at hp
        exact Finset.mem_insert_of_mem (Finset.mem_insert_of_mem hp)
      · rw [if_neg hgn]; exact hp
    · left
      rw [ufg_none_some st a b gb hpa hpb]
      dsimp only
      simp only [fupd]
      by_cases hgg : g = gb
      · rw [if_pos hgg]
        rw [hgg] at hp
        exact Finset.mem_insert_of_mem hp
      · rw [if_neg hgg]; exact hp
  · rcases hpb : st.player_friend_group b with _ | gb
    · left
      rw [ufg_some_none st a b ga hpa hpb]
      dsimp only
      simp only [fupd]
      by_cases hgg : g = ga
      · rw [if_pos hgg]
        rw [hgg] at hp
        exact Finset.mem_insert_of_mem hp
      · rw [if_neg hgg]; exact hp
    · by_cases heq : ga = gb
      · subst heq
        rw [ufg_same st a b ga hpa hpb]
        exact Or.inl hp
      · by_cases hge : (st.global_friend_group ga).card ≥
            (st.global_friend_group gb).card
        · by_cases hm : st.global_friend_group gb = ∅
          · rw [ufg_merge_ge_empty st a b ga gb hpa hpb heq hge hm]
            exact Or.inl hp
          · rw [ufg_merge_ge st a b ga gb hpa hpb heq hge hm]
            dsimp only
            simp only [fupd]
            by_cases hgs : g = gb
            · right
              refine ⟨?_, ⟨ga, ?_⟩⟩
              · rw [if_pos hgs]
              · simp only [if_neg heq, if_true]
                rw [hgs] at hp
                exact Finset.mem_union_right _ hp
            · left
              rw [if_neg hgs]
              by_cases hgb2 : g = ga
              · rw [if_pos hgb2]
                rw [hgb2] at hp
                exact Finset.mem_union_left _ hp
              · rw [if_neg hgb2]; exact hp
        · by_cases hm : st.global_friend_group ga = ∅
          · rw [ufg_merge_lt_empty st a b ga gb hpa hpb heq hge hm]
            exact Or.inl hp
          · rw [ufg_merge_lt st a b ga gb hpa hpb heq hge hm]
            dsimp only
            simp only [fupd]
            by_cases hgs : g = ga
            · right
              refine ⟨?_, ⟨gb, ?_⟩⟩
              · rw [if_pos hgs]
              · simp only [if_neg (Ne.symm heq), if_true]
                rw [hgs] at hp
                exact Finset.mem_union_right _ hp
            · left
              rw [if_neg hgs]
              by_cases hgb2 : g = gb
              · rw [if_pos hgb2]
                rw [hgb2] at hp
                exact Finset.mem_union_left _ hp
              · rw [if_neg hgb2]; exact hp

end BoardGameClub
namespace BoardGameClub

/-- C4: over every serial sequence of link operations, two players are in the
same friend group exactly when a chain of recorded links connects them; a
merge of two distinct groups always moves the smaller group's members into
the larger group, repoints every migrated member's pointer, deletes the
smaller group's member set and leaves all other groups untouched; and a
group member is never lost except by its whole group being merged into
another group. -/
theorem C4_friend_group_clustering :
    (∀ (ls : List (String × String)) (p q : String),
      same_group (run_friend_groups ls) p q ↔ chain_connected ls p q) ∧
    (∀ (st : Store) (a b : String) (g1 g2 : Nat),
      st.player_friend_group a = some g1 → st.player_friend_group b = some g2 →
      g1 ≠ g2 →
      ∃ big small : Nat,
        ((big, small) = (g1, g2) ∨ (big, small) = (g2, g1)) ∧
        (st.global_friend_group small).card ≤ (st.global_friend_group big).card ∧
        (update_friend_groups st a b).global_friend_group big =
          st.global_friend_group big ∪ st.global_friend_group small ∧
        (update_friend_groups st a b).global_friend_group small = ∅ ∧
        (∀ p, p ∈ st.global_friend_group small →
          (update_friend_groups st a b).player_friend_group p = some big) ∧
        (∀ p, p ∉ st.global_friend_group small →
          (update_friend_groups st a b).player_friend_group p =
            st.player_friend_group p) ∧
        (∀ g, g ≠ big → g ≠ small →
          (update_friend_groups st a b).global_friend_group g =
            st.global_friend_group g)) ∧
    (∀ (st : Store) (a b : String) (g : Nat) (p : String),
      p ∈ st.global_friend_group g →
      p ∈ (update_friend_groups st a b).global_friend_group g ∨
      ((update_friend_groups st a b).global_friend_group g = ∅ ∧
        ∃ g2, p ∈ (update_friend_groups st a b).global_friend_group g2)) := by
  refine ⟨?_, ?_, ?_⟩
  · intro ls p q
    exact (run_friend_groups_inv ls).2.2 p q
  · intro st a b g1 g2 hpa hpb hne
    exact fg_merge_spec st a b g1 g2 hpa hpb hne
  · intro st a b g p hp
    exact fg_no_member_loss st a b g p hp

/-- Witness for C4: linking a-b then b-c puts a and c in the same friend
group, by the chain a-b-c. -/
theorem C4_witness :
    same_group (run_friend_groups [("a", "b"), ("b", "c")]) "a" "c" := by
  apply (C4_friend_group_clustering.1 [("a", "b"), ("b", "c")] "a" "c").mpr
  refine ⟨?_, ?_⟩
  · exact Relation.ReflTransGen.tail
      (Relation.ReflTransGen.single ⟨("a", "b"), by simp, Or.inl ⟨rfl, rfl⟩⟩)
      ⟨("b", "c"), by simp, Or.inl ⟨rfl, rfl⟩⟩
  · exact ⟨("a", "b"), by simp, Or.inl rfl⟩

end BoardGameClub
